import Mathlib

/-!
Verification development for the Slack content-performance data bot.

The definitions below are a shallow embedding of the core of the
repository: the execution planner (`src/agents/nodes/query_planning.py`),
the execution engine (`src/agents/nodes/data_retrieval.py`), the MCP
client and circuit breaker (`src/services/mcp_client.py`), and the Redis
task queue (`src/services/queue.py`).

Modelling conventions:
 - timestamps are integer seconds (`Int`); consecutive reads of
   `datetime.utcnow()` inside one function body are modelled as a single
   reading passed in explicitly, and sub-second precision is dropped;
 - `uuid.uuid4()` draws are passed in as explicit `String` arguments;
 - dictionaries are association lists in insertion order, with
   assignment modelled as update-in-place-or-append (`insertAssoc`),
   matching the source dict semantics;
 - JSON-ish argument values are the inductive `Value`;
 - network calls are modelled by explicit outcome oracles: the state
   transition and control flow of the code is embedded exactly, while
   the remote side of each call is an input.
-/

/-- JSON-like argument values, as found in tool arguments and intents. -/
inductive Value where
  | vstr (s : String)
  | vint (n : Int)
  | vbool (b : Bool)
  | vlist (l : List Value)

/-- First binding for a key in an association list (dict lookup). -/
def lookupA {α : Type} (m : List (String × α)) (k : String) : Option α :=
  match m with
  | [] => none
  | (k₁, v) :: rest => if k₁ = k then some v else lookupA rest k

/-- Dict assignment `d[k] = v`: replaces the value in place when the key is
present (keeping its position, as a dict does), appends otherwise. -/
def insertAssoc {α : Type} (m : List (String × α)) (k : String) (v : α) :
    List (String × α) :=
  if (m.map Prod.fst).contains k then
    m.map (fun p => if p.1 = k then (k, v) else p)
  else m ++ [(k, v)]

/-! ## Planner data model (`src/agents/state.py`) -/

/-- `MCPToolCall` (pydantic model in `src/agents/state.py`). -/
structure MCPToolCall where
  tool_name : String
  arguments : List (String × Value)
  timeout : Nat
  retry_count : Nat

/-- `DataSource` (pydantic model in `src/agents/state.py`). -/
structure DataSource where
  name : String
  dtype : String
  mcp_tools : List MCPToolCall
  priority : Int
  required : Bool

/-- One execution step: the dict built per data source in
`create_execution_plan`. -/
structure Step where
  step_id : String
  data_source : String
  mcp_tools : List MCPToolCall
  required : Bool
  estimated_time : Nat
  depends_on : List String

/-- `ExecutionPlan` (pydantic model in `src/agents/state.py`). -/
structure ExecutionPlan where
  plan_id : String
  steps : List Step
  estimated_time : Nat
  complexity : String
  parallel_execution : Bool

/-- The intent dict consumed by the planner: only the fields the embedded
functions read (`intent_type`, `entities`, `filters`, `data_sources`). -/
structure Intent where
  intent_type : String
  entities : List (String × Value)
  filters : List (String × Value)
  data_sources : List String

/-! ## Planner functions (`src/agents/nodes/query_planning.py`) -/

/-- `determine_complexity`: weighted score over tool count, source count,
entity count and filter count, bucketed at 5 and 15. -/
def determine_complexity (data_sources : List DataSource) (intent : Intent) :
    String :=
  let total_tools := (data_sources.map (fun ds => ds.mcp_tools.length)).foldl
    (· + ·) 0
  let complexity_score := total_tools * 2 + data_sources.length * 3 +
    intent.entities.length + intent.filters.length
  if complexity_score ≤ 5 then "simple"
  else if complexity_score ≤ 15 then "medium"
  else "complex"

/-- The step dict built for data source `ds` at 0-based loop index `i` in
`create_execution_plan`. -/
def mkStep (parallel_execution : Bool) (i : Nat) (ds : DataSource) : Step :=
  { step_id := "step_" ++ toString (i + 1)
    data_source := ds.name
    mcp_tools := ds.mcp_tools
    required := ds.required
    estimated_time := (ds.mcp_tools.map (fun t => t.timeout)).foldl (· + ·) 0
    depends_on :=
      if parallel_execution then []
      else if 0 < i then ["step_" ++ toString i] else [] }

/-- The `for i, data_source in enumerate(data_sources)` loop of
`create_execution_plan`, building one step per data source. -/
def stepsLoop (parallel_execution : Bool) : Nat → List DataSource → List Step
  | _, [] => []
  | i, ds :: rest => mkStep parallel_execution i ds ::
      stepsLoop parallel_execution (i + 1) rest

/-- `create_execution_plan`.  The source draws `plan_id = str(uuid.uuid4())`;
the draw is the explicit argument `plan_id`. -/
def create_execution_plan (data_sources : List DataSource) (intent : Intent)
    (plan_id : String) : ExecutionPlan :=
  let parallel_execution := decide (1 < data_sources.length) &&
    data_sources.all (fun ds => !ds.required || ds.mcp_tools.length == 1)
  let steps := stepsLoop parallel_execution 0 data_sources
  let total_estimated_time :=
    if parallel_execution then
      (steps.map (fun s => s.estimated_time)).foldl max 0
    else
      (steps.map (fun s => s.estimated_time)).foldl (· + ·) 0
  { plan_id := plan_id
    steps := steps
    estimated_time := total_estimated_time
    complexity := determine_complexity data_sources intent
    parallel_execution := parallel_execution }

/-- The `time_range` dict read by `format_time_range_for_tool`, with the
defaults used by the `.get` calls of the source
(`pattern` defaults to the empty string, `value` to 7, `unit` to days). -/
structure TimeRange where
  ttype : String
  pattern : String := ""
  value : Int := 7
  unit : String := "days"
  start_date : Option String := none
  end_date : Option String := none

/-- Does `needle` occur as a contiguous substring (the `in` operator on
strings), over character lists? -/
def hasSubList (needle : List Char) : List Char → Bool
  | [] => needle.isEmpty
  | c :: cs => needle.isPrefixOf (c :: cs) || hasSubList needle cs

/-- The `in` operator on strings. -/
def hasSub (needle hay : String) : Bool :=
  hasSubList needle.toList hay.toList

/-- Abstract injective rendering of a timestamp, standing in for
`datetime.isoformat()`. -/
def isoTs (t : Int) : String := "ts:" ++ toString t

/-- `datetime.replace(hour=0, minute=0, second=0)`: floor to the start of
the UTC day (seconds precision). -/
def dayStart (t : Int) : Int := 86400 * Int.fdiv t 86400

/-- `format_time_range_for_tool`.  All `datetime.utcnow()` readings in one
invocation are modelled as the single argument `now`. -/
def format_time_range_for_tool (tr : TimeRange) (now : Int) :
    List (String × String) :=
  if tr.ttype = "relative" then
    if hasSub "today" tr.pattern then
      [("start_date", isoTs (dayStart now)), ("end_date", isoTs now)]
    else if hasSub "yesterday" tr.pattern then
      let sd := dayStart (now - 86400)
      [("start_date", isoTs sd), ("end_date", isoTs (sd + 86399))]
    else if hasSub "week" tr.pattern then
      let days_back : Int := if hasSub "last week" tr.pattern then 7 else 0
      [("start_date", isoTs (now - days_back * 86400 - 7 * 86400)),
       ("end_date", isoTs now)]
    else if hasSub "month" tr.pattern then
      let months_back : Int := if hasSub "last month" tr.pattern then 1 else 0
      [("start_date", isoTs (now - months_back * 30 * 86400)),
       ("end_date", isoTs now)]
    else
      [("start_date", isoTs (now - 7 * 86400)), ("end_date", isoTs now)]
  else if tr.ttype = "absolute" then
    (match tr.start_date with
      | some s => [("start_date", s)]
      | none => []) ++
    (match tr.end_date with
      | some e => [("end_date", e)]
      | none => [])
  else if tr.ttype = "duration" then
    let start_date :=
      if tr.unit = "days" then now - tr.value * 86400
      else if tr.unit = "weeks" then now - tr.value * 7 * 86400
      else if tr.unit = "months" then now - tr.value * 30 * 86400
      else now - 7 * 86400
    [("start_date", isoTs start_date), ("end_date", isoTs now)]
  else []

/-- The inner `for dep in step.get("depends_on", [])` loop of
`validate_execution_plan`: first dependency id that is not a step id. -/
def firstBadDep (step_ids : List String) : List Step → Option String
  | [] => none
  | s :: rest =>
    match s.depends_on.find? (fun dep => !step_ids.contains dep) with
    | some dep => some dep
    | none => firstBadDep step_ids rest

/-- `validate_execution_plan`: returns the `{"valid": , "reason": }` pair. -/
def validate_execution_plan (plan : ExecutionPlan) : Bool × String :=
  if plan.steps.isEmpty then (false, "No execution steps defined")
  else if 300 < plan.estimated_time then
    (false, "Query estimated to take too long")
  else
    match firstBadDep (plan.steps.map (fun s => s.step_id)) plan.steps with
    | some dep => (false, "Invalid dependency: " ++ dep)
    | none =>
      if (plan.steps.filter (fun s => s.required)).isEmpty then
        (false, "No required execution steps")
      else (true, "Plan is valid")

/-! ## Execution engine (`src/agents/nodes/data_retrieval.py`) -/

/-- Outcome of one guarded tool invocation inside `execute_step`: either the
result returned through the circuit breaker, or the caught `MCPError`
message. -/
inductive ToolOutcome where
  | ok (v : Value)
  | err (msg : String)

/-- The `success` flag of the per-tool record stored in `step_results`. -/
def toolSuccess : ToolOutcome → Bool
  | .ok _ => true
  | .err _ => false

/-- The dict returned by `execute_step` (the wall-clock `execution_time`
field is not modelled). -/
structure StepResult where
  success : Bool
  data : List (String × ToolOutcome)
  tool_results : Nat
  successful_tools : Nat

/-- `execute_step`, over the list of (tool name, invocation outcome) pairs of
the step in call order.  `step_results[tool_name] = ...` is dict assignment,
so a later call with the same tool name overwrites the earlier record.
The defensive `except Exception` wrapper of the source is not modelled:
no modelled operation raises a non-`MCPError` exception. -/
def execute_step (tools : List (String × ToolOutcome)) : StepResult :=
  let step_results := tools.foldl (fun m t => insertAssoc m t.1 t.2) []
  let successful_tools := step_results.filter (fun p => toolSuccess p.2)
  { success := decide (0 < successful_tools.length)
    data := step_results
    tool_results := step_results.length
    successful_tools := successful_tools.length }

/-- An entry of the sequential-execution results map: either the dict
returned by `execute_step`, or the dependency-failure record
`{"success": False, "error": "Dependencies not met", "data": None}`. -/
inductive SeqEntry where
  | executed (r : StepResult)
  | depFailure

/-- `result.get("success", False)` on a results-map entry. -/
def entrySuccess : SeqEntry → Bool
  | .executed r => r.success
  | .depFailure => false

/-- `check_dependencies`: every id in the dependency list must be present in
the results map with a successful result. -/
def check_dependencies (step : Step) (results : List (String × SeqEntry)) :
    Bool :=
  step.depends_on.all (fun dep =>
    match lookupA results dep with
    | some r => entrySuccess r
    | none => false)

/-- The loop body of `execute_sequential_plan`.  `env i` is the
`StepResult` that `execute_step` returns for the step at 0-based position
`i` of the plan.  Returns the results map together with the list of
positions whose tool calls were actually invoked (`execute_step` reached).
The `try/except` around `execute_step` is not modelled: no modelled
operation raises. -/
def seqGo (env : Nat → StepResult) :
    List Step → Nat → List (String × SeqEntry) →
    List (String × SeqEntry) × List Nat
  | [], _, acc => (acc, [])
  | s :: rest, i, acc =>
    if check_dependencies s acc then
      let r := env i
      let acc₁ := insertAssoc acc s.step_id (.executed r)
      if s.required && !r.success then (acc₁, [i])
      else
        let rec_result := seqGo env rest (i + 1) acc₁
        (rec_result.1, i :: rec_result.2)
    else
      let acc₁ := insertAssoc acc s.step_id .depFailure
      if s.required then (acc₁, [])
      else seqGo env rest (i + 1) acc₁

/-- `execute_sequential_plan`. -/
def execute_sequential_plan (plan : ExecutionPlan) (env : Nat → StepResult) :
    List (String × SeqEntry) × List Nat :=
  seqGo env plan.steps 0 []

/-! ## MCP client retry loop (`src/services/mcp_client.py`, `call_tool`) -/

/-- Outcome of one HTTP attempt of `call_tool`: either the extracted result,
or the message of the caught exception (transport failure, malformed
response, JSON-RPC error field, non-200 status, missing result). -/
inductive AttemptResult where
  | ok (v : Value)
  | fail (msg : String)

/-- The observable trace of one `call_tool` invocation: the returned result
or raised `MCPError` message, the number of attempts made, and the backoff
delays slept between attempts (in the same unit as `retry_delay`). -/
structure CallTrace where
  outcome : Except String Value
  attempts : Nat
  delays : List Nat

/-- The terminal `MCPError` message of `call_tool`. -/
def callToolFailMsg (attempts : Nat) (last_error : String) : String :=
  "MCP tool call failed after " ++ toString attempts ++ " attempts: " ++
    last_error

/-- The `for attempt in range(actual_retries + 1)` loop of `call_tool`.
`attempt` is the current 0-based attempt index, `remaining` the number of
attempts still allowed after this one (`actual_retries - attempt`), and
`env` gives each attempt its outcome.  `retry_delay` is the base delay. -/
def call_tool_aux (retry_delay : Nat) (env : Nat → AttemptResult) :
    Nat → Nat → CallTrace
  | attempt, remaining =>
    match env attempt with
    | .ok v => { outcome := .ok v, attempts := 1, delays := [] }
    | .fail m =>
      match remaining with
      | 0 =>
        { outcome := .error (callToolFailMsg (attempt + 1) m)
          attempts := 1
          delays := [] }
      | r + 1 =>
        let rest := call_tool_aux retry_delay env (attempt + 1) r
        { outcome := rest.outcome
          attempts := rest.attempts + 1
          delays := retry_delay * 2 ^ attempt :: rest.delays }

/-- `call_tool` with `retry_count = retries`: at most `retries + 1` attempts,
exponential backoff `retry_delay * 2 ^ attempt` between attempts. -/
def call_tool (retries : Nat) (retry_delay : Nat)
    (env : Nat → AttemptResult) : CallTrace :=
  call_tool_aux retry_delay env 0 retries

/-! ## Circuit breaker (`src/services/mcp_client.py`, `MCPCircuitBreaker`) -/

/-- Breaker configuration (constructor arguments). -/
structure BreakerConfig where
  failure_threshold : Nat
  recovery_timeout : Int

/-- Mutable breaker state: `failure_count`, `last_failure_time`, `state`
(one of the strings closed, open, half-open). -/
structure BreakerState where
  failure_count : Nat
  last_failure_time : Option Int
  state : String
deriving DecidableEq

/-- Breaker state right after `__init__`. -/
def initialBreaker : BreakerState :=
  { failure_count := 0, last_failure_time := none, state := "closed" }

/-- What the wrapped coroutine does when invoked: returns, raises the
guarded `expected_exception`, or raises an unrelated exception. -/
inductive CallOutcome where
  | success
  | guardedFailure
  | unguardedFailure
deriving DecidableEq

/-- Whether the wrapped function was invoked or the breaker raised its
fail-fast error without calling it. -/
inductive CallEffect where
  | invoked
  | failedFast
deriving DecidableEq

/-- `_should_attempt_reset`. -/
def should_attempt_reset (cfg : BreakerConfig) (b : BreakerState)
    (now : Int) : Bool :=
  match b.last_failure_time with
  | none => true
  | some t => decide (cfg.recovery_timeout ≤ now - t)

/-- `_on_success`. -/
def on_success (_b : BreakerState) : BreakerState :=
  { failure_count := 0, last_failure_time := none, state := "closed" }

/-- `_on_failure`: increments the counter, stamps the failure time, and
opens the circuit when the counter reaches the threshold (otherwise the
state is left unchanged). -/
def on_failure (cfg : BreakerConfig) (b : BreakerState) (now : Int) :
    BreakerState :=
  let c := b.failure_count + 1
  { failure_count := c
    last_failure_time := some now
    state := if cfg.failure_threshold ≤ c then "open" else b.state }

/-- The `try: result = await func(...)` part of `call`. -/
def breaker_run (cfg : BreakerConfig) (b : BreakerState) (now : Int) :
    CallOutcome → BreakerState × CallEffect
  | .success => (on_success b, .invoked)
  | .guardedFailure => (on_failure cfg b now, .invoked)
  | .unguardedFailure => (b, .invoked)

/-- `MCPCircuitBreaker.call`: `now` is the `time.time()` reading and
`outcome` is what the wrapped function would do if invoked. -/
def breaker_call (cfg : BreakerConfig) (b : BreakerState) (now : Int)
    (outcome : CallOutcome) : BreakerState × CallEffect :=
  if b.state = "open" then
    if should_attempt_reset cfg b now then
      breaker_run cfg { b with state := "half-open" } now outcome
    else (b, .failedFast)
  else breaker_run cfg b now outcome

/-- States reachable from the freshly constructed breaker by any sequence
of calls. -/
inductive BreakerReachable (cfg : BreakerConfig) : BreakerState → Prop where
  | init : BreakerReachable cfg initialBreaker
  | step (b : BreakerState) (now : Int) (outcome : CallOutcome) :
      BreakerReachable cfg b →
      BreakerReachable cfg (breaker_call cfg b now outcome).1

/-! ## Task queue (`src/services/queue.py`) -/

/-- A task record, as serialized into Redis by `enqueue` and mutated by
`fail_task`.  The payload is opaque to the queue and is kept as its JSON
text. -/
structure QTask where
  id : String
  ttype : String
  payload : String
  priority : Int
  retry_count : Int
  max_retries : Int
  created_at : Int
  scheduled_at : Int
  last_error : Option String := none
  failed_at : Option Int := none
deriving DecidableEq

/-- The four Redis collections backing one `TaskQueue`.  `main` is the
ready list (`lpush` prepends, `brpop` pops from the tail), `delayed` is the
scored set (member together with its score). -/
structure QueueState where
  main : List QTask
  processing : List QTask
  failed : List QTask
  delayed : List (QTask × Int)
deriving DecidableEq

/-- The empty queue. -/
def emptyQueue : QueueState :=
  { main := [], processing := [], failed := [], delayed := [] }

/-- `enqueue`: `now` is the `datetime.utcnow()` reading and `task_id` the
`uuid.uuid4()` draw. -/
def enqueue (st : QueueState) (now : Int) (task_id : String)
    (task_type : String) (payload : String) (priority : Int)
    (delay_seconds : Int) (retry_count : Int) : QueueState × String :=
  let task : QTask :=
    { id := task_id
      ttype := task_type
      payload := payload
      priority := priority
      retry_count := retry_count
      max_retries := retry_count
      created_at := now
      scheduled_at := now + delay_seconds }
  if 0 < delay_seconds then
    ({ st with delayed := st.delayed ++ [(task, now + delay_seconds)] },
      task_id)
  else
    ({ st with main := task :: st.main }, task_id)

/-- `_remove_from_processing`: scan the processing list head to tail for the
first task with the given id; remove and return it. -/
def removeFirstById : List QTask → String → Option (QTask × List QTask)
  | [], _ => none
  | t :: rest, task_id =>
    if t.id = task_id then some (t, rest)
    else
      match removeFirstById rest task_id with
      | some (found, remaining) => some (found, t :: remaining)
      | none => none

/-- `fail_task`: decrement the retry counter, record the error; re-enqueue
into the delayed set with quadratic backoff while the counter stays
positive, move to the failed list once it reaches zero.  Returns the
boolean result of the source function. -/
def fail_task (st : QueueState) (now : Int) (task_id : String)
    (error : String) : QueueState × Bool :=
  match removeFirstById st.processing task_id with
  | none => (st, false)
  | some (task, rest) =>
    let t : QTask :=
      { task with
        retry_count := task.retry_count - 1
        last_error := some error
        failed_at := some now }
    if 0 < t.retry_count then
      let delay := (t.max_retries - t.retry_count) ^ 2 * 10
      ({ st with
          processing := rest
          delayed := st.delayed ++ [(t, now + delay)] }, true)
    else
      ({ st with processing := rest, failed := t :: st.failed }, false)

/-- Insert an entry into a score-ascending list, after entries of equal
score. -/
def insertByScore (x : QTask × Int) : List (QTask × Int) → List (QTask × Int)
  | [] => [x]
  | y :: ys => if x.2 < y.2 then x :: y :: ys else y :: insertByScore x ys

/-- Ascending-score ordering of a scored set, as `zrangebyscore` returns
it. -/
def sortByScore (l : List (QTask × Int)) : List (QTask × Int) :=
  l.foldr insertByScore []

/-- Membership test used by `_process_delayed_tasks`:
`zrangebyscore(delayed, 0, now)`. -/
def delayedReady (now : Int) (x : QTask × Int) : Bool :=
  decide (0 ≤ x.2) && decide (x.2 ≤ now)

/-- `_process_delayed_tasks`: move every delayed task whose score lies in
`[0, now]` to the ready list (`lpush` in ascending score order) and remove
it from the delayed set. -/
def processDelayed (st : QueueState) (now : Int) : QueueState :=
  let ready := sortByScore (st.delayed.filter (delayedReady now))
  { st with
      main := ready.foldl (fun m x => x.1 :: m) st.main
      delayed := st.delayed.filter (fun x => !delayedReady now x) }

/-- `brpop`: pop from the tail of the ready list. -/
def rpop : List QTask → Option (QTask × List QTask)
  | [] => none
  | [t] => some (t, [])
  | t :: rest =>
    match rpop rest with
    | some (x, remaining) => some (x, t :: remaining)
    | none => none

/-- `dequeue`: promote ready delayed tasks, pop the tail of the ready list,
move the popped task to the processing list. -/
def dequeue (st : QueueState) (now : Int) : QueueState × Option QTask :=
  let st₁ := processDelayed st now
  match rpop st₁.main with
  | none => (st₁, none)
  | some (t, remaining) =>
    ({ st₁ with main := remaining, processing := t :: st₁.processing },
      some t)

/-! ## Sample data for concrete runs

Concrete values drawn from the static mapping table in
`src/agents/mappers/intent_to_mcp.py`, used by witnesses and
counterexamples below. -/

/-- The `search_performance_data` tool call for a metrics intent. -/
def perfToolCall : MCPToolCall :=
  { tool_name := "search_performance_data"
    arguments := [("format", .vstr "json"), ("limit", .vint 10000),
      ("metrics", .vlist [.vstr "conversion_rate"])]
    timeout := 30
    retry_count := 3 }

/-- The `search_campaign_performance` tool call. -/
def campToolCall : MCPToolCall :=
  { tool_name := "search_campaign_performance"
    arguments := [("format", .vstr "json"), ("include_costs", .vbool true)]
    timeout := 45
    retry_count := 3 }

/-- The `get_campaign_hierarchy` tool call. -/
def hierToolCall : MCPToolCall :=
  { tool_name := "get_campaign_hierarchy"
    arguments := []
    timeout := 15
    retry_count := 2 }

/-- The `performance_metrics` data source (priority 5, required, one
applicable tool for a metrics intent). -/
def perfSource : DataSource :=
  { name := "performance_metrics"
    dtype := "analytics"
    mcp_tools := [perfToolCall]
    priority := 5
    required := true }

/-- The `campaign_data` data source with two applicable tools (required,
multi-call: forces sequential execution). -/
def campaignSource : DataSource :=
  { name := "campaign_data"
    dtype := "marketing"
    mcp_tools := [campToolCall, hierToolCall]
    priority := 4
    required := true }

/-- A metrics intent requesting performance data. -/
def metricsIntent : Intent :=
  { intent_type := "metrics"
    entities := [("metrics", .vlist [.vstr "conversion_rate"])]
    filters := []
    data_sources := ["performance_metrics"] }

/-! ## Helper lemmas -/

/-- `firstBadDep` returns `none` exactly when every dependency of every
step is among the step ids. -/
theorem firstBadDep_eq_none_iff (ids : List String) (steps : List Step) :
    firstBadDep ids steps = none ↔
      ∀ s ∈ steps, ∀ d ∈ s.depends_on, d ∈ ids := by
  induction steps with
  | nil => simp [firstBadDep]
  | cons s rest ih =>
    simp only [firstBadDep]
    cases hfind : s.depends_on.find? (fun dep => !ids.contains dep) with
    | some dep =>
      simp only [reduceCtorEq, false_iff]
      intro hall
      have hmem := List.mem_of_find?_eq_some hfind
      have hfalse : ids.contains dep = false := by
        simpa using List.find?_some hfind
      have hin := hall s (List.mem_cons_self s rest) dep hmem
      rw [← List.elem_iff] at hin
      exact absurd hin (by simp [List.contains] at hfalse; simp [hfalse])
    | none =>
      rw [List.find?_eq_none] at hfind
      simp only [ih, List.mem_cons]
      constructor
      · intro hall t ht d hd
        rcases ht with rfl | ht
        · have := hfind d hd
          simpa [List.elem_iff] using this
        · exact hall t ht d hd
      · intro hall t ht d hd
        exact hall t (Or.inr ht) d hd

/-- `firstBadDep` returns a witness of a dangling dependency. -/
theorem firstBadDep_eq_some (ids : List String) (steps : List Step)
    (d : String) (h : firstBadDep ids steps = some d) :
    ∃ s ∈ steps, d ∈ s.depends_on ∧ d ∉ ids := by
  induction steps with
  | nil => simp [firstBadDep] at h
  | cons s rest ih =>
    simp only [firstBadDep] at h
    cases hfind : s.depends_on.find? (fun dep => !ids.contains dep) with
    | some dep =>
      rw [hfind] at h
      cases h
      refine ⟨s, List.mem_cons_self s rest,
        List.mem_of_find?_eq_some hfind, ?_⟩
      have hfalse : ids.contains d = false := by
        simpa using List.find?_some hfind
      intro hmem
      rw [← List.elem_iff] at hmem
      simp [List.contains] at hfalse
      simp [hfalse] at hmem
    | none =>
      rw [hfind] at h
      obtain ⟨t, ht, hd⟩ := ih h
      exact ⟨t, List.mem_cons_of_mem s ht, hd⟩


/-- `stepsLoop` builds one step per data source. -/
theorem stepsLoop_length (par : Bool) (l : List DataSource) :
    ∀ k, (stepsLoop par k l).length = l.length := by
  induction l with
  | nil => intro k; rfl
  | cons d rest ih => intro k; simp [stepsLoop, ih]

/-- The step at position `i` of `stepsLoop` starting at index `k`. -/
theorem stepsLoop_get (par : Bool) (l : List DataSource) :
    ∀ k i (h : i < (stepsLoop par k l).length),
      (stepsLoop par k l).get ⟨i, h⟩ =
        mkStep par (k + i)
          (l.get ⟨i, by rw [← stepsLoop_length par l k]; exact h⟩) := by
  induction l with
  | nil => intro k i h; simp [stepsLoop] at h
  | cons d rest ih =>
    intro k i h
    cases i with
    | zero => simp [stepsLoop]
    | succ j =>
      simp only [stepsLoop, List.get_cons_succ]
      rw [ih (k + 1) j]
      congr 1
      omega

/-- Claim C7: `validate_execution_plan` accepts a plan exactly when it has at least one step, at least one required step, estimated time at most 300,
and every referenced dependency id is a step id of the plan; rejections
never carry the valid reason string. -/
theorem validate_plan_accepts_iff (p : ExecutionPlan) :
    ((validate_execution_plan p).1 = true ↔
      (p.steps ≠ [] ∧ p.estimated_time ≤ 300 ∧
        (∀ s ∈ p.steps, ∀ d ∈ s.depends_on,
          d ∈ p.steps.map (fun t => t.step_id)) ∧
        (∃ s ∈ p.steps, s.required = true))) ∧
    ((validate_execution_plan p).1 = false →
      (validate_execution_plan p).2 ≠ "Plan is valid") := by
  by_cases h1 : p.steps.isEmpty
  · rw [List.isEmpty_iff] at h1
    have heq : validate_execution_plan p =
        (false, "No execution steps defined") := by
      simp [validate_execution_plan, h1]
    rw [heq]
    constructor
    · simp [h1]
    · intro _; decide
  · rw [List.isEmpty_iff] at h1
    by_cases h2 : 300 < p.estimated_time
    · have heq : validate_execution_plan p =
          (false, "Query estimated to take too long") := by
        simp [validate_execution_plan, h1, h2]
      rw [heq]
      constructor
      · simp
        intro _ h
        omega
      · intro _; decide
    · cases hbad : firstBadDep (p.steps.map (fun s => s.step_id)) p.steps with
      | some dep =>
        have heq : validate_execution_plan p =
            (false, "Invalid dependency: " ++ dep) := by
          simp [validate_execution_plan, h1, h2, hbad]
        rw [heq]
        constructor
        · simp only [Bool.false_eq_true, false_iff]
          intro hall
          obtain ⟨s, hs, hd, hnot⟩ :=
            firstBadDep_eq_some (p.steps.map (fun s => s.step_id)) p.steps
              dep hbad
          exact hnot (hall.2.2.1 s hs dep hd)
        · intro _ habs
          have hdata := congrArg String.data habs
          simp [String.data_append] at hdata
      | none =>
        by_cases h4 : (p.steps.filter (fun s => s.required)).isEmpty
        · rw [List.isEmpty_iff] at h4
          have heq : validate_execution_plan p =
              (false, "No required execution steps") := by
            simp [validate_execution_plan, h1, h2, hbad, h4]
          rw [heq]
          constructor
          · simp only [Bool.false_eq_true, false_iff]
            rintro ⟨_, _, _, s, hs, hreq⟩
            rw [List.filter_eq_nil_iff] at h4
            exact absurd hreq (by simpa using h4 s hs)
          · intro _; decide
        · rw [List.isEmpty_iff] at h4
          have heq : validate_execution_plan p = (true, "Plan is valid") := by
            simp [validate_execution_plan, h1, h2, hbad, h4]
          rw [heq]
          constructor
          · simp only [true_iff]
            refine ⟨h1, by omega, ?_, ?_⟩
            · exact (firstBadDep_eq_none_iff _ _).mp hbad
            · obtain ⟨s, hs⟩ := List.exists_mem_of_ne_nil _ h4
              rw [List.mem_filter] at hs
              exact ⟨s, hs.1, hs.2⟩
          · intro habs
            simp at habs

/-- Claim C6: `create_execution_plan` chooses parallel execution exactly
when more than one data source is present and every data source is
optional or single-tool; in parallel mode every dependency list is empty,
and in sequential mode step `i + 1` depends exactly on the id of step `i`
while the first step has no dependencies. -/
theorem plan_parallel_rule_and_chain (ds : List DataSource) (intent : Intent)
    (u : String) :
    ((create_execution_plan ds intent u).parallel_execution = true ↔
      (1 < ds.length ∧
        ∀ d ∈ ds, d.required = false ∨ d.mcp_tools.length = 1)) ∧
    (∀ i (h : i < (create_execution_plan ds intent u).steps.length),
      (create_execution_plan ds intent u).parallel_execution = true →
      ((create_execution_plan ds intent u).steps.get ⟨i, h⟩).depends_on
        = []) ∧
    (∀ h₀ : 0 < (create_execution_plan ds intent u).steps.length,
      (create_execution_plan ds intent u).parallel_execution = false →
      ((create_execution_plan ds intent u).steps.get ⟨0, h₀⟩).depends_on
        = []) ∧
    (∀ i (h : i + 1 < (create_execution_plan ds intent u).steps.length),
      (create_execution_plan ds intent u).parallel_execution = false →
      ((create_execution_plan ds intent u).steps.get ⟨i + 1, h⟩).depends_on =
        [((create_execution_plan ds intent u).steps.get
          ⟨i, Nat.lt_of_succ_lt h⟩).step_id]) := by
  have hpar : (create_execution_plan ds intent u).parallel_execution =
      (decide (1 < ds.length) &&
        ds.all (fun d => !d.required || d.mcp_tools.length == 1)) := rfl
  have hsteps : (create_execution_plan ds intent u).steps =
      stepsLoop ((create_execution_plan ds intent u).parallel_execution)
        0 ds := rfl
  refine ⟨?_, ?_, ?_, ?_⟩
  · rw [hpar]
    simp only [Bool.and_eq_true, decide_eq_true_eq, List.all_eq_true,
      Bool.or_eq_true, Bool.not_eq_true', beq_iff_eq]
  · intro i h hp
    have h₂ : i < (stepsLoop
        ((create_execution_plan ds intent u).parallel_execution)
        0 ds).length := by rw [← hsteps]; exact h
    have hget := stepsLoop_get
      ((create_execution_plan ds intent u).parallel_execution) ds 0 i h₂
    have : ((create_execution_plan ds intent u).steps.get ⟨i, h⟩)
        = (stepsLoop ((create_execution_plan ds intent u).parallel_execution)
            0 ds).get ⟨i, h₂⟩ := by
      congr 1
    rw [this, hget]
    simp [mkStep, hp]
  · intro h₀ hp
    have h₂ : 0 < (stepsLoop
        ((create_execution_plan ds intent u).parallel_execution)
        0 ds).length := by rw [← hsteps]; exact h₀
    have hget := stepsLoop_get
      ((create_execution_plan ds intent u).parallel_execution) ds 0 0 h₂
    have : ((create_execution_plan ds intent u).steps.get ⟨0, h₀⟩)
        = (stepsLoop ((create_execution_plan ds intent u).parallel_execution)
            0 ds).get ⟨0, h₂⟩ := by
      congr 1
    rw [this, hget]
    simp [mkStep, hp]
  · intro i h hp
    have h₂ : i + 1 < (stepsLoop
        ((create_execution_plan ds intent u).parallel_execution)
        0 ds).length := by rw [← hsteps]; exact h
    have h₃ : i < (stepsLoop
        ((create_execution_plan ds intent u).parallel_execution)
        0 ds).length := Nat.lt_of_succ_lt h₂
    have hget₁ := stepsLoop_get
      ((create_execution_plan ds intent u).parallel_execution) ds 0 (i + 1) h₂
    have hget₂ := stepsLoop_get
      ((create_execution_plan ds intent u).parallel_execution) ds 0 i h₃
    have e₁ : ((create_execution_plan ds intent u).steps.get ⟨i + 1, h⟩)
        = (stepsLoop ((create_execution_plan ds intent u).parallel_execution)
            0 ds).get ⟨i + 1, h₂⟩ := by
      congr 1
    have e₂ : ((create_execution_plan ds intent u).steps.get
          ⟨i, Nat.lt_of_succ_lt h⟩)
        = (stepsLoop ((create_execution_plan ds intent u).parallel_execution)
            0 ds).get ⟨i, h₃⟩ := by
      congr 1
    rw [e₁, hget₁, e₂, hget₂]
    simp [mkStep, hp]

/-- Claim C2 counterexample: two runs of the planner on the same data
sources and the same intent draw different plan ids (the source generates
`plan_id = str(uuid.uuid4())` afresh on each run), so the resulting plans
are not bit-for-bit identical. -/
theorem planner_two_runs_differ :
    create_execution_plan [perfSource] metricsIntent
        "0b9adf30-0000-4000-8000-000000000001" ≠
      create_execution_plan [perfSource] metricsIntent
        "5d2c6e7f-0000-4000-8000-000000000002" := by
  intro h
  have h₂ : ("0b9adf30-0000-4000-8000-000000000001" : String) =
      "5d2c6e7f-0000-4000-8000-000000000002" :=
    congrArg ExecutionPlan.plan_id h
  exact absurd h₂ (by decide)

/-- Claim C2 amended: two runs of `create_execution_plan` on the same data
sources and intent agree on the step list (order, arguments), the
estimated time, the complexity label and the parallel flag; the plan ids
agree exactly when the two uuid draws agree. -/
theorem planner_deterministic_up_to_plan_id (ds : List DataSource)
    (intent : Intent) (u₁ u₂ : String) :
    (create_execution_plan ds intent u₁).steps =
        (create_execution_plan ds intent u₂).steps ∧
    (create_execution_plan ds intent u₁).estimated_time =
        (create_execution_plan ds intent u₂).estimated_time ∧
    (create_execution_plan ds intent u₁).complexity =
        (create_execution_plan ds intent u₂).complexity ∧
    (create_execution_plan ds intent u₁).parallel_execution =
        (create_execution_plan ds intent u₂).parallel_execution ∧
    ((create_execution_plan ds intent u₁).plan_id =
        (create_execution_plan ds intent u₂).plan_id ↔ u₁ = u₂) :=
  ⟨rfl, rfl, rfl, rfl, Iff.rfl⟩

/-- Folding dict assignments over entries with fresh, pairwise-distinct
keys just appends them. -/
theorem foldl_insertAssoc_eq_append {α : Type} (l : List (String × α)) :
    ∀ acc : List (String × α),
      (∀ p ∈ l, p.1 ∉ acc.map Prod.fst) →
      (l.map Prod.fst).Nodup →
      l.foldl (fun m t => insertAssoc m t.1 t.2) acc = acc ++ l := by
  induction l with
  | nil => intro acc _ _; simp
  | cons t rest ih =>
    intro acc hdisj hnd
    rw [List.map_cons, List.nodup_cons] at hnd
    simp only [List.foldl_cons]
    have hnotmem : t.1 ∉ acc.map Prod.fst :=
      hdisj t (List.mem_cons_self t rest)
    have hfresh : (acc.map Prod.fst).contains t.1 = false := by
      rw [← Bool.not_eq_true, List.elem_iff]
      exact hnotmem
    have hins : insertAssoc acc t.1 t.2 = acc ++ [t] := by
      unfold insertAssoc
      rw [hfresh]
      simp
    rw [hins]
    have hdisj₂ : ∀ p ∈ rest, p.1 ∉ (acc ++ [t]).map Prod.fst := by
      intro p hp
      rw [List.map_append, List.mem_append]
      rintro (hmem | hmem)
      · exact hdisj p (List.mem_cons_of_mem t hp) hmem
      · simp only [List.map_cons, List.map_nil, List.mem_singleton] at hmem
        exact hnd.1 (hmem ▸ List.mem_map_of_mem Prod.fst hp)
    rw [ih (acc ++ [t]) hdisj₂ hnd.2]
    simp

/-- The list of tool calls of the counterexample step: two calls that
share a tool name, the first succeeding and the second failing. -/
def dupNameTools : List (String × ToolOutcome) :=
  [("search_performance_data", .ok (.vstr "rows")),
   ("search_performance_data", .err "MCP tool error: upstream boom")]

/-- Claim C5 counterexample: a step with two tool calls of which exactly
one succeeded, yet `execute_step` reports the step as failed with
`tool_results = 1`, because `step_results` is keyed by tool name and the
second call overwrites the first. -/
theorem step_dup_tool_name_cex :
    dupNameTools.length = 2 ∧
    (dupNameTools.filter (fun p => toolSuccess p.2)).length = 1 ∧
    (execute_step dupNameTools).success = false ∧
    (execute_step dupNameTools).tool_results = 1 :=
  ⟨rfl, rfl, rfl, rfl⟩

/-- Claim C5 amended: for a step whose tool calls carry pairwise-distinct
tool names, the step result has `success = true` exactly when at least one
tool call succeeded, `tool_results` counts all tool calls, and
`successful_tools` counts the successful ones. -/
theorem step_success_iff_any_tool_success
    (tools : List (String × ToolOutcome))
    (hnd : (tools.map Prod.fst).Nodup) :
    ((execute_step tools).success = true ↔
      ∃ p ∈ tools, toolSuccess p.2 = true) ∧
    (execute_step tools).tool_results = tools.length ∧
    (execute_step tools).successful_tools =
      (tools.filter (fun p => toolSuccess p.2)).length := by
  have hfold : tools.foldl (fun m t => insertAssoc m t.1 t.2) [] = tools := by
    simpa using foldl_insertAssoc_eq_append tools [] (by simp) hnd
  refine ⟨?_, ?_, ?_⟩
  · show decide (0 < ((tools.foldl (fun m t => insertAssoc m t.1 t.2)
        []).filter (fun p => toolSuccess p.2)).length) = true ↔ _
    rw [hfold, decide_eq_true_eq]
    constructor
    · intro hpos
      have hne : tools.filter (fun p => toolSuccess p.2) ≠ [] := by
        intro habs
        rw [habs] at hpos
        simp at hpos
      obtain ⟨p, hp⟩ := List.exists_mem_of_ne_nil _ hne
      rw [List.mem_filter] at hp
      exact ⟨p, hp.1, hp.2⟩
    · rintro ⟨p, hp, hsucc⟩
      have : p ∈ tools.filter (fun p => toolSuccess p.2) := by
        rw [List.mem_filter]
        exact ⟨hp, hsucc⟩
      exact List.length_pos.mpr (List.ne_nil_of_mem this)
  · show ((tools.foldl (fun m t => insertAssoc m t.1 t.2) []).length) = _
    rw [hfold]
  · show ((tools.foldl (fun m t => insertAssoc m t.1 t.2)
        []).filter (fun p => toolSuccess p.2)).length = _
    rw [hfold]

/-- The two-distinct-tool step used as witness input: two tool calls,
exactly one fails. -/
def twoToolsOneFail : List (String × ToolOutcome) :=
  [("search_campaign_performance", .ok (.vstr "rows")),
   ("get_campaign_hierarchy", .err "MCP tool error: timeout")]

/-- Witness for the amended claim C5: the two-call step with exactly one
failing call is reported as step success with `successful_tools = 1` and
`tool_results = 2`. -/
theorem step_success_iff_any_tool_success_witness :
    (execute_step twoToolsOneFail).success = true ∧
    (execute_step twoToolsOneFail).tool_results = 2 ∧
    (execute_step twoToolsOneFail).successful_tools = 1 := by
  have h := step_success_iff_any_tool_success twoToolsOneFail (by decide)
  refine ⟨?_, ?_, ?_⟩
  · exact h.1.mpr
      ⟨("search_campaign_performance", .ok (.vstr "rows")),
        by simp [twoToolsOneFail], rfl⟩
  · rw [h.2.1]; rfl
  · rw [h.2.2]; rfl

/-- Every run of the retry loop makes at least one attempt. -/
theorem call_tool_aux_attempts_pos (δ : Nat) (env : Nat → AttemptResult) :
    ∀ r a, 1 ≤ (call_tool_aux δ env a r).attempts := by
  intro r
  induction r with
  | zero =>
    intro a
    unfold call_tool_aux
    cases env a <;> simp
  | succ r ih =>
    intro a
    unfold call_tool_aux
    cases env a <;> simp

/-- The retry loop makes at most `remaining + 1` attempts. -/
theorem call_tool_aux_attempts_le (δ : Nat) (env : Nat → AttemptResult) :
    ∀ r a, (call_tool_aux δ env a r).attempts ≤ r + 1 := by
  intro r
  induction r with
  | zero =>
    intro a
    unfold call_tool_aux
    cases env a <;> simp
  | succ r ih =>
    intro a
    unfold call_tool_aux
    cases env a with
    | ok v => simp
    | fail m =>
      simp only
      have := ih (a + 1)
      omega

/-- The delays slept by the retry loop are exactly
`δ * 2 ^ (first attempt index + i)` for each non-final attempt. -/
theorem call_tool_aux_delays (δ : Nat) (env : Nat → AttemptResult) :
    ∀ r a, (call_tool_aux δ env a r).delays =
      (List.range ((call_tool_aux δ env a r).attempts - 1)).map
        (fun i => δ * 2 ^ (a + i)) := by
  intro r
  induction r with
  | zero =>
    intro a
    unfold call_tool_aux
    cases env a <;> simp
  | succ r ih =>
    intro a
    unfold call_tool_aux
    cases env a with
    | ok v => simp
    | fail m =>
      simp only
      have hpos := call_tool_aux_attempts_pos δ env r (a + 1)
      have hk : (call_tool_aux δ env (a + 1) r).attempts + 1 - 1 =
          ((call_tool_aux δ env (a + 1) r).attempts - 1) + 1 := by omega
      rw [ih (a + 1), hk, List.range_succ_eq_map]
      simp only [List.map_cons, List.map_map, Nat.add_zero]
      refine congrArg₂ List.cons rfl ?_
      apply List.map_congr_left
      intro i _
      simp only [Function.comp_apply]
      have he : a + 1 + i = a + i.succ := by omega
      rw [he]

/-- When every attempt fails, the retry loop exhausts all attempts and
raises the terminal error built from the last failure message. -/
theorem call_tool_aux_all_fail (δ : Nat) (env : Nat → AttemptResult) :
    ∀ r a m,
      (∀ i, i ≤ r → ∃ m₀, env (a + i) = AttemptResult.fail m₀) →
      env (a + r) = AttemptResult.fail m →
      (call_tool_aux δ env a r).outcome =
          Except.error (callToolFailMsg (a + r + 1) m) ∧
      (call_tool_aux δ env a r).attempts = r + 1 := by
  intro r
  induction r with
  | zero =>
    intro a m _ hlast
    rw [Nat.add_zero] at hlast
    unfold call_tool_aux
    rw [hlast]
    simp
  | succ r ih =>
    intro a m hall hlast
    obtain ⟨m₀, h₀⟩ := hall 0 (Nat.zero_le _)
    rw [Nat.add_zero] at h₀
    unfold call_tool_aux
    rw [h₀]
    simp only
    have hall₂ : ∀ i, i ≤ r → ∃ m₀, env (a + 1 + i) = .fail m₀ := by
      intro i hi
      have := hall (i + 1) (by omega)
      rwa [show a + (i + 1) = a + 1 + i by omega] at this
    have hlast₂ : env (a + 1 + r) = .fail m := by
      rwa [show a + (r + 1) = a + 1 + r by omega] at hlast
    have := ih (a + 1) m hall₂ hlast₂
    refine ⟨?_, ?_⟩
    · rw [this.1]
      congr 2
      omega
    · rw [this.2]

/-- When the first success comes at relative position `k ≤ remaining`, the
loop returns it after exactly `k + 1` attempts. -/
theorem call_tool_aux_first_success (δ : Nat) (env : Nat → AttemptResult) :
    ∀ k r a v, k ≤ r →
      (∀ i, i < k → ∃ m, env (a + i) = AttemptResult.fail m) →
      env (a + k) = AttemptResult.ok v →
      (call_tool_aux δ env a r).outcome = Except.ok v ∧
      (call_tool_aux δ env a r).attempts = k + 1 := by
  intro k
  induction k with
  | zero =>
    intro r a v _ _ hok
    rw [Nat.add_zero] at hok
    unfold call_tool_aux
    rw [hok]
    cases r <;> simp
  | succ k ih =>
    intro r a v hkr hfail hok
    obtain ⟨m₀, h₀⟩ := hfail 0 (Nat.succ_pos k)
    rw [Nat.add_zero] at h₀
    cases r with
    | zero => omega
    | succ r =>
      unfold call_tool_aux
      rw [h₀]
      simp only
      have hfail₂ : ∀ i, i < k → ∃ m, env (a + 1 + i) = .fail m := by
        intro i hi
        have := hfail (i + 1) (by omega)
        rwa [show a + (i + 1) = a + 1 + i by omega] at this
      have hok₂ : env (a + 1 + k) = .ok v := by
        rwa [show a + (k + 1) = a + 1 + k by omega] at hok
      have := ih r (a + 1) v (by omega) hfail₂ hok₂
      exact ⟨this.1, by rw [this.2]⟩

/-- Claim C8: `call_tool` with `retry_count = retries` makes at most
`retries + 1` attempts; each failed non-final attempt is followed by a
backoff delay of `retry_delay * 2 ^ attempt`; when every attempt fails the
raised `MCPError` message embeds the last underlying error message; and a
first success at attempt `k` ends the loop with `k + 1` attempts. -/
theorem call_tool_retry_contract (retries δ : Nat)
    (env : Nat → AttemptResult) :
    (call_tool retries δ env).attempts ≤ retries + 1 ∧
    (call_tool retries δ env).delays =
      (List.range ((call_tool retries δ env).attempts - 1)).map
        (fun i => δ * 2 ^ i) ∧
    (∀ m, (∀ i, i ≤ retries → ∃ m₀, env i = AttemptResult.fail m₀) →
      env retries = AttemptResult.fail m →
      (call_tool retries δ env).outcome =
        Except.error ("MCP tool call failed after " ++
          toString (retries + 1) ++ " attempts: " ++ m) ∧
      (call_tool retries δ env).attempts = retries + 1) ∧
    (∀ k v, k ≤ retries →
      (∀ i, i < k → ∃ m, env i = AttemptResult.fail m) →
      env k = AttemptResult.ok v →
      (call_tool retries δ env).outcome = Except.ok v ∧
      (call_tool retries δ env).attempts = k + 1) := by
  refine ⟨?_, ?_, ?_, ?_⟩
  · exact call_tool_aux_attempts_le δ env retries 0
  · have := call_tool_aux_delays δ env retries 0
    simpa [call_tool] using this
  · intro m hall hlast
    have := call_tool_aux_all_fail δ env retries 0 m
      (by simpa using hall) (by simpa using hlast)
    simpa [call_tool, callToolFailMsg] using this
  · intro k v hk hfail hok
    have := call_tool_aux_first_success δ env k retries 0 v hk
      (by simpa using hfail) (by simpa using hok)
    simpa [call_tool] using this

/-- The attempt oracle of the C8 witness: the first attempt fails with a
transport error, the second succeeds. -/
def witnessEnv : Nat → AttemptResult :=
  fun i => if i = 0 then .fail "MCP server returned status 500: oops"
    else .ok (.vstr "data")

/-- Witness for claim C8: with `retry_count = 2` and a failure on the
first attempt only, `call_tool` succeeds on the second attempt, making two
attempts with one backoff delay. -/
theorem call_tool_retry_contract_witness :
    (call_tool 2 1 witnessEnv).outcome = Except.ok (.vstr "data") ∧
    (call_tool 2 1 witnessEnv).attempts = 2 := by
  have h := (call_tool_retry_contract 2 1 witnessEnv).2.2.2 1 (.vstr "data")
    (by omega)
    (by
      intro i hi
      have : i = 0 := by omega
      subst this
      exact ⟨"MCP server returned status 500: oops", rfl⟩)
    rfl
  exact h

/-- Reachability invariant of the breaker: the state string is one of the
three legal values; in the closed state the failure counter is below the
threshold; in the open and half-open states the counter has reached the
threshold and a failure timestamp is recorded. -/
def BreakerInv (cfg : BreakerConfig) (b : BreakerState) : Prop :=
  (b.state = "closed" ∨ b.state = "open" ∨ b.state = "half-open") ∧
  (b.state = "closed" → b.failure_count < cfg.failure_threshold) ∧
  ((b.state = "open" ∨ b.state = "half-open") →
    cfg.failure_threshold ≤ b.failure_count ∧
      b.last_failure_time ≠ none)

/-- The invariant holds in every reachable breaker state (for a positive
threshold). -/
theorem breaker_inv_of_reachable (cfg : BreakerConfig)
    (hth : 1 ≤ cfg.failure_threshold) :
    ∀ b, BreakerReachable cfg b → BreakerInv cfg b := by
  intro b hreach
  induction hreach with
  | init =>
    refine ⟨Or.inl rfl, fun _ => ?_, fun h => ?_⟩
    · simpa [initialBreaker] using hth
    · rcases h with h | h <;> simp [initialBreaker] at h
  | step b now outcome _ ih =>
    obtain ⟨hstates, hclosed, hopenhalf⟩ := ih
    by_cases hopen : b.state = "open"
    · by_cases hreset : should_attempt_reset cfg b now = true
      · have hrun : breaker_call cfg b now outcome =
            breaker_run cfg { b with state := "half-open" } now outcome := by
          simp [breaker_call, hopen, hreset]
        rw [hrun]
        have hbase := hopenhalf (Or.inl hopen)
        cases outcome with
        | success =>
          refine ⟨Or.inl rfl, fun _ => by simpa using hth, fun h => ?_⟩
          rcases h with h | h <;> simp [breaker_run, on_success] at h
        | guardedFailure =>
          have hle : cfg.failure_threshold ≤ b.failure_count + 1 := by
            omega
          refine ⟨Or.inr (Or.inl ?_), fun hc => ?_, fun _ => ?_⟩
          · simp [breaker_run, on_failure, hle]
          · simp [breaker_run, on_failure, hle] at hc
          · simp [breaker_run, on_failure]
            omega
        | unguardedFailure =>
          refine ⟨Or.inr (Or.inr ?_), fun hc => ?_, fun _ => ?_⟩
          · simp [breaker_run]
          · simp [breaker_run] at hc
          · simp [breaker_run]
            exact hbase
      · have heq : breaker_call cfg b now outcome = (b, .failedFast) := by
          simp [breaker_call, hopen]
          intro habs
          exact absurd habs (by simpa using hreset)
        rw [heq]
        exact ⟨hstates, hclosed, hopenhalf⟩
    · have hrun : breaker_call cfg b now outcome =
          breaker_run cfg b now outcome := by
        simp [breaker_call, hopen]
      rw [hrun]
      cases outcome with
      | success =>
        refine ⟨Or.inl rfl, fun _ => by simpa using hth, fun h => ?_⟩
        rcases h with h | h <;> simp [breaker_run, on_success] at h
      | guardedFailure =>
        by_cases hle : cfg.failure_threshold ≤ b.failure_count + 1
        · refine ⟨Or.inr (Or.inl ?_), fun hc => ?_, fun _ => ?_⟩
          · simp [breaker_run, on_failure, hle]
          · simp [breaker_run, on_failure, hle] at hc
          · simp [breaker_run, on_failure]
            omega
        · have hstc : (breaker_run cfg b now .guardedFailure).1.state =
              b.state := by
            simp [breaker_run, on_failure, hle]
          refine ⟨?_, fun hc => ?_, fun h => ?_⟩
          · rw [hstc]; exact hstates
          · rw [hstc] at hc
            simp [breaker_run, on_failure]
            omega
          · rw [hstc] at h
            have hbase := hopenhalf h
            constructor
            · simp only [breaker_run, on_failure]
              omega
            · simp [breaker_run, on_failure]
      | unguardedFailure =>
        exact ⟨hstates, hclosed, hopenhalf⟩

/-- Claim C3: in every reachable breaker state (positive threshold):
the closed state transitions to open exactly when a guarded failure makes
the consecutive failure count reach the threshold; while open and inside
the recovery window, `call` fails fast without invoking the function and
leaves the state untouched; once the window has elapsed the next call is
allowed through (via half-open), returning to closed with a zeroed counter
on success and back to open on a guarded failure; every invoked successful
call forces the closed state with counter zero; and a guarded failure in
the half-open state reopens the circuit. -/
theorem breaker_state_machine (cfg : BreakerConfig) (b : BreakerState)
    (now : Int) (outcome : CallOutcome)
    (hth : 1 ≤ cfg.failure_threshold)
    (hreach : BreakerReachable cfg b) :
    (b.state = "closed" →
      ((breaker_call cfg b now outcome).1.state = "open" ↔
        (outcome = .guardedFailure ∧
          b.failure_count + 1 = cfg.failure_threshold))) ∧
    (∀ t, b.state = "open" → b.last_failure_time = some t →
      now - t < cfg.recovery_timeout →
      breaker_call cfg b now outcome = (b, .failedFast)) ∧
    (∀ t, b.state = "open" → b.last_failure_time = some t →
      cfg.recovery_timeout ≤ now - t →
      (breaker_call cfg b now outcome).2 = .invoked ∧
      (outcome = .success → (breaker_call cfg b now outcome).1 =
        { failure_count := 0, last_failure_time := none,
          state := "closed" }) ∧
      (outcome = .guardedFailure →
        (breaker_call cfg b now outcome).1.state = "open") ∧
      (outcome = .unguardedFailure →
        (breaker_call cfg b now outcome).1.state = "half-open")) ∧
    (outcome = .success → (breaker_call cfg b now outcome).2 = .invoked →
      (breaker_call cfg b now outcome).1 =
        { failure_count := 0, last_failure_time := none,
          state := "closed" }) ∧
    (b.state = "half-open" → outcome = .guardedFailure →
      (breaker_call cfg b now outcome).1.state = "open") := by
  obtain ⟨hstates, hclosed, hopenhalf⟩ :=
    breaker_inv_of_reachable cfg hth b hreach
  refine ⟨?_, ?_, ?_, ?_, ?_⟩
  · intro hcl
    have hnotopen : ¬ b.state = "open" := by rw [hcl]; decide
    have hrun : breaker_call cfg b now outcome =
        breaker_run cfg b now outcome := by
      simp [breaker_call, hnotopen]
    rw [hrun]
    have hlt := hclosed hcl
    cases outcome with
    | success =>
      simp only [breaker_run, on_success]
      constructor
      · intro habs; exact absurd habs (by decide)
      · rintro ⟨habs, _⟩; exact absurd habs (by simp)
    | guardedFailure =>
      simp only [breaker_run, on_failure]
      by_cases hle : cfg.failure_threshold ≤ b.failure_count + 1
      · simp [hle]
        omega
      · simp only [hle, if_false]
        rw [hcl]
        constructor
        · intro habs; exact absurd habs (by decide)
        · rintro ⟨_, heq⟩; omega
    | unguardedFailure =>
      simp only [breaker_run]
      rw [hcl]
      constructor
      · intro habs; exact absurd habs (by decide)
      · rintro ⟨habs, _⟩; exact absurd habs (by simp)
  · intro t hop hlast hwin
    have hreset : should_attempt_reset cfg b now = false := by
      simp [should_attempt_reset, hlast]
      omega
    simp [breaker_call, hop, hreset]
  · intro t hop hlast hwin
    have hreset : should_attempt_reset cfg b now = true := by
      simp [should_attempt_reset, hlast]
      omega
    have hrun : breaker_call cfg b now outcome =
        breaker_run cfg { b with state := "half-open" } now outcome := by
      simp [breaker_call, hop, hreset]
    rw [hrun]
    have hbase := hopenhalf (Or.inl hop)
    refine ⟨?_, ?_, ?_, ?_⟩
    · cases outcome <;> simp [breaker_run]
    · rintro rfl
      simp [breaker_run, on_success]
    · rintro rfl
      have hle : cfg.failure_threshold ≤ b.failure_count + 1 := by omega
      simp [breaker_run, on_failure, hle]
    · rintro rfl
      simp [breaker_run]
  · rintro rfl hinv
    by_cases hop : b.state = "open"
    · by_cases hreset : should_attempt_reset cfg b now = true
      · have hrun : breaker_call cfg b now .success =
            breaker_run cfg { b with state := "half-open" } now .success := by
          simp [breaker_call, hop, hreset]
        rw [hrun]
        simp [breaker_run, on_success]
      · have heq : breaker_call cfg b now .success = (b, .failedFast) := by
          simp [breaker_call, hop]
          intro habs
          exact absurd habs (by simpa using hreset)
        rw [heq] at hinv
        simp at hinv
    · have hrun : breaker_call cfg b now .success =
          breaker_run cfg b now .success := by
        simp [breaker_call, hop]
      rw [hrun]
      simp [breaker_run, on_success]
  · intro hhalf hg
    have hnotopen : ¬ b.state = "open" := by rw [hhalf]; decide
    have hrun : breaker_call cfg b now outcome =
        breaker_run cfg b now outcome := by
      simp [breaker_call, hnotopen]
    rw [hrun, hg]
    have hbase := hopenhalf (Or.inr hhalf)
    have hle : cfg.failure_threshold ≤ b.failure_count + 1 := by omega
    simp [breaker_run, on_failure, hle]

/-- Witness for claim C3: after three guarded failures at times 0, 1, 2
(threshold 3), the breaker is open; a call at time 3 — inside the
60-second recovery window — fails fast without invoking the function and
leaves the state unchanged. -/
theorem breaker_state_machine_witness :
    breaker_call ⟨3, 60⟩
        { failure_count := 3, last_failure_time := some 2, state := "open" }
        3 .success =
      ({ failure_count := 3, last_failure_time := some 2, state := "open" },
        .failedFast) := by
  have r0 : BreakerReachable ⟨3, 60⟩ initialBreaker := .init
  have r1 := BreakerReachable.step initialBreaker 0 .guardedFailure r0
  have r2 := BreakerReachable.step _ 1 .guardedFailure r1
  have r3 := BreakerReachable.step _ 2 .guardedFailure r2
  have heq : (breaker_call ⟨3, 60⟩
      (breaker_call ⟨3, 60⟩
        (breaker_call ⟨3, 60⟩ initialBreaker 0 .guardedFailure).1
        1 .guardedFailure).1
      2 .guardedFailure).1 =
      { failure_count := 3, last_failure_time := some 2,
        state := "open" } := by decide
  rw [heq] at r3
  exact (breaker_state_machine ⟨3, 60⟩
    { failure_count := 3, last_failure_time := some 2, state := "open" }
    3 .success (by decide) r3).2.1 2 rfl rfl (by decide)

/-! ## Concrete queue traces -/

/-- Queue state after enqueueing one ready task with `retry_count = 3`
(uuid draw `task-1`, clock 0). -/
def c1_s1 : QueueState :=
  (enqueue emptyQueue 0 "task-1" "process_slack_query" "{}" 0 0 3).1

/-- State after the first dequeue: the task is in the processing list. -/
def c1_s2 : QueueState := (dequeue c1_s1 0).1

/-- First failure, at time 0. -/
def c1_f1 : QueueState × Bool := fail_task c1_s2 0 "task-1" "error one"

/-- Dequeue again at time 100 (the 10-second backoff has elapsed). -/
def c1_s4 : QueueState := (dequeue c1_f1.1 100).1

/-- Second failure, at time 100. -/
def c1_f2 : QueueState × Bool := fail_task c1_s4 100 "task-1" "error two"

/-- Dequeue again at time 200 (the 40-second backoff has elapsed). -/
def c1_s6 : QueueState := (dequeue c1_f2.1 200).1

/-- Third failure, at time 200. -/
def c1_f3 : QueueState × Bool := fail_task c1_s6 200 "task-1" "error three"

/-- Claim C1 counterexample: for a task enqueued with `max_retries = 3`
and failed repeatedly, the first two failures re-enqueue it with delays 10
and 40 (scores 10 and 140 at clock readings 0 and 100), but the THIRD
failure already moves it to the permanent-failure list (returning the
failure-terminal result) instead of scheduling a third delay — the claim,
which expects three increasing delays and a fourth terminal failure, fails
at this input. -/
theorem fail_task_third_failure_permanent_cex :
    c1_f1.2 = true ∧ c1_f1.1.delayed.map Prod.snd = [10] ∧
    c1_f2.2 = true ∧ c1_f2.1.delayed.map Prod.snd = [140] ∧
    c1_f3.2 = false ∧ c1_f3.1.delayed = [] ∧
    c1_f3.1.failed.map QTask.id = ["task-1"] ∧
    (c1_f3.1.failed.map QTask.retry_count = [0]) := by decide

/-- Claim C1 amended: every `fail_task` call on a task found in processing
decrements the retry counter and records the error; while the decremented
counter stays positive the task is re-enqueued into the delayed set with
delay `(max_retries - remaining) ^ 2 * 10` (strictly increasing across
consecutive failures — 10 then 40 for `max_retries = 3`), and the failure
that drives the counter to zero (the third for `max_retries = 3`) moves
the task to the permanent-failure list, returning the terminal result. -/
theorem fail_task_backoff (st : QueueState) (now : Int)
    (task_id error : String) :
    (∀ task rest,
      removeFirstById st.processing task_id = some (task, rest) →
      ((0 < task.retry_count - 1 →
        fail_task st now task_id error =
          ({ st with
              processing := rest
              delayed := st.delayed ++
                [({ task with
                      retry_count := task.retry_count - 1
                      last_error := some error
                      failed_at := some now },
                  now + (task.max_retries - (task.retry_count - 1)) ^ 2
                    * 10)] },
            true)) ∧
      (task.retry_count - 1 ≤ 0 →
        fail_task st now task_id error =
          ({ st with
              processing := rest
              failed := { task with
                  retry_count := task.retry_count - 1
                  last_error := some error
                  failed_at := some now } :: st.failed },
            false)))) ∧
    (∀ max_r r : Int, r ≤ max_r →
      (max_r - r) ^ 2 * 10 < (max_r - (r - 1)) ^ 2 * 10) ∧
    (((3 : Int) - 2) ^ 2 * 10 = 10 ∧ ((3 : Int) - 1) ^ 2 * 10 = 40) := by
  refine ⟨?_, ?_, by norm_num⟩
  · intro task rest hrem
    constructor
    · intro hpos
      simp only [fail_task, hrem]
      rw [if_pos hpos]
    · intro hnonpos
      simp only [fail_task, hrem]
      rw [if_neg (by omega)]
  · intro max_r r hle
    have hd : 0 ≤ max_r - r := by omega
    have : max_r - (r - 1) = (max_r - r) + 1 := by ring
    rw [this]
    nlinarith [sq_nonneg (max_r - r)]

/-- Witness for the amended claim C1: the first failure of the concrete
trace re-enqueues the task with the 10-second backoff and returns the
retry result. -/
theorem fail_task_backoff_witness :
    (fail_task c1_s2 0 "task-1" "error one" =
      ({ main := [], processing := [],
         failed := [],
         delayed := [({
             id := "task-1", ttype := "process_slack_query",
             payload := "{}", priority := 0, retry_count := 2,
             max_retries := 3, created_at := 0, scheduled_at := 0,
             last_error := some "error one", failed_at := some 0 }, 10)] },
       true)) ∧
    ((3 : Int) - 2) ^ 2 * 10 < ((3 : Int) - (2 - 1)) ^ 2 * 10 := by
  constructor
  · have h := ((fail_task_backoff c1_s2 0 "task-1" "error one").1
      { id := "task-1", ttype := "process_slack_query", payload := "{}",
        priority := 0, retry_count := 3, max_retries := 3,
        created_at := 0, scheduled_at := 0 } [] (by decide)).1 (by decide)
    rw [h]
    decide
  · exact (fail_task_backoff c1_s2 0 "task-1" "error one").2.1 3 2
      (by decide)

/-- Processing list holding one task whose retry budget is exhausted by a
single failure. -/
def c9TermState : QueueState :=
  { main := [], failed := [], delayed := []
    processing := [{
      id := "task-9", ttype := "process_slack_query",
      payload := "{}", priority := 0, retry_count := 1, max_retries := 1,
      created_at := 0, scheduled_at := 0 }] }

/-- Claim C9 counterexample: `fail_task` on an id absent from processing
is a no-op returning `False`, but a successful fail that exhausts the
retry budget ALSO returns `False` (moving the task to the failed list), so
the not-found signal is not distinguishable from the return value of that
successful fail. -/
theorem fail_task_not_found_indistinguishable_cex :
    fail_task emptyQueue 0 "missing-id" "err" = (emptyQueue, false) ∧
    (fail_task c9TermState 0 "task-9" "err").2 = false ∧
    (fail_task c9TermState 0 "task-9" "err").1.failed.map QTask.id =
      ["task-9"] := by decide

/-- Claim C9 amended: `fail_task` on a task id not present in the
processing list is a no-op on the queue state and returns `False`; this is
distinguishable from a fail that reschedules a retry (which returns
`True`) but identical to the return value of a fail that exhausts the
retry budget (also `False`). -/
theorem fail_task_unknown_id_noop (now : Int) (task_id error : String) :
    (∀ st : QueueState,
      removeFirstById st.processing task_id = none →
      fail_task st now task_id error = (st, false)) ∧
    (∀ (st : QueueState) (task : QTask) (rest : List QTask),
      removeFirstById st.processing task_id = some (task, rest) →
      0 < task.retry_count - 1 →
      (fail_task st now task_id error).2 = true) := by
  constructor
  · intro st hmiss
    simp [fail_task, hmiss]
  · intro st task rest hrem hpos
    simp only [fail_task, hrem]
    rw [if_pos hpos]

/-- Witness for the amended claim C9: failing an id that is not in
processing leaves the concrete queue untouched and returns `False`, while
failing a task with retries left returns `True`. -/
theorem fail_task_unknown_id_noop_witness :
    fail_task c1_s2 0 "missing-id" "err" = (c1_s2, false) ∧
    (fail_task c1_s2 0 "task-1" "err").2 = true := by
  constructor
  · exact (fail_task_unknown_id_noop 0 "missing-id" "err").1 c1_s2 (by decide)
  · exact (fail_task_unknown_id_noop 0 "task-1" "err").2 c1_s2
      { id := "task-1", ttype := "process_slack_query", payload := "{}",
        priority := 0, retry_count := 3, max_retries := 3,
        created_at := 0, scheduled_at := 0 } [] (by decide) (by decide)

/-- Claim C10: the `priority` argument of `enqueue` is stored in the task
record but never affects delivery: two tasks enqueued ready (delay 0) into
an empty ready list are returned by `dequeue` in enqueue order (lpush to
the head, brpop from the tail) for every pair of priority values, with any
processing and failed lists present and any delayed tasks that are not yet
ready. -/
theorem enqueue_fifo_priority_ignored
    (pr fl : List QTask) (dl : List (QTask × Int))
    (n₁ n₂ n₃ n₄ p q r₁ r₂ : Int)
    (id₁ id₂ ty₁ ty₂ pl₁ pl₂ : String)
    (hn₃ : ∀ x ∈ dl, n₃ < x.2) (hn₄ : ∀ x ∈ dl, n₄ < x.2) :
    (dequeue (enqueue (enqueue (⟨[], pr, fl, dl⟩ : QueueState)
        n₁ id₁ ty₁ pl₁ p 0 r₁).1 n₂ id₂ ty₂ pl₂ q 0 r₂).1 n₃).2 =
      some ⟨id₁, ty₁, pl₁, p, r₁, r₁, n₁, n₁, none, none⟩ ∧
    (dequeue (dequeue (enqueue (enqueue (⟨[], pr, fl, dl⟩ : QueueState)
        n₁ id₁ ty₁ pl₁ p 0 r₁).1 n₂ id₂ ty₂ pl₂ q 0 r₂).1 n₃).1 n₄).2 =
      some ⟨id₂, ty₂, pl₂, q, r₂, r₂, n₂, n₂, none, none⟩ := by
  have hf₃ : dl.filter (delayedReady n₃) = [] := by
    rw [List.filter_eq_nil_iff]
    intro x hx
    simp only [delayedReady, Bool.and_eq_true, decide_eq_true_eq, not_and]
    intro _
    have := hn₃ x hx
    omega
  have hk₃ : dl.filter (fun x => !delayedReady n₃ x) = dl := by
    rw [List.filter_eq_self]
    intro x hx
    simp [delayedReady]
    have := hn₃ x hx
    omega
  have hf₄ : dl.filter (delayedReady n₄) = [] := by
    rw [List.filter_eq_nil_iff]
    intro x hx
    simp only [delayedReady, Bool.and_eq_true, decide_eq_true_eq, not_and]
    intro _
    have := hn₄ x hx
    omega
  have hk₄ : dl.filter (fun x => !delayedReady n₄ x) = dl := by
    rw [List.filter_eq_self]
    intro x hx
    simp [delayedReady]
    have := hn₄ x hx
    omega
  have henq : ((enqueue (enqueue (⟨[], pr, fl, dl⟩ : QueueState)
      n₁ id₁ ty₁ pl₁ p 0 r₁).1 n₂ id₂ ty₂ pl₂ q 0 r₂).1 : QueueState) =
      ⟨[⟨id₂, ty₂, pl₂, q, r₂, r₂, n₂, n₂, none, none⟩,
        ⟨id₁, ty₁, pl₁, p, r₁, r₁, n₁, n₁, none, none⟩], pr, fl, dl⟩ := by
    simp [enqueue]
  rw [henq]
  have hd₁ : dequeue (⟨[⟨id₂, ty₂, pl₂, q, r₂, r₂, n₂, n₂, none, none⟩,
      ⟨id₁, ty₁, pl₁, p, r₁, r₁, n₁, n₁, none, none⟩], pr, fl, dl⟩ :
        QueueState) n₃ =
      (⟨[⟨id₂, ty₂, pl₂, q, r₂, r₂, n₂, n₂, none, none⟩],
        ⟨id₁, ty₁, pl₁, p, r₁, r₁, n₁, n₁, none, none⟩ :: pr, fl, dl⟩,
       some ⟨id₁, ty₁, pl₁, p, r₁, r₁, n₁, n₁, none, none⟩) := by
    simp [dequeue, processDelayed, hf₃, hk₃, sortByScore, rpop]
  rw [hd₁]
  have hd₂ : dequeue (⟨[⟨id₂, ty₂, pl₂, q, r₂, r₂, n₂, n₂, none, none⟩],
      ⟨id₁, ty₁, pl₁, p, r₁, r₁, n₁, n₁, none, none⟩ :: pr, fl, dl⟩ :
        QueueState) n₄ =
      (⟨[], ⟨id₂, ty₂, pl₂, q, r₂, r₂, n₂, n₂, none, none⟩ ::
          ⟨id₁, ty₁, pl₁, p, r₁, r₁, n₁, n₁, none, none⟩ :: pr, fl, dl⟩,
       some ⟨id₂, ty₂, pl₂, q, r₂, r₂, n₂, n₂, none, none⟩) := by
    simp [dequeue, processDelayed, hf₄, hk₄, sortByScore, rpop]
  rw [hd₂]
  exact ⟨rfl, rfl⟩

/-- Witness for claim C10: with a reversed priority pair (second task has
much higher priority), dequeue still returns the first-enqueued task
first. -/
theorem enqueue_fifo_priority_ignored_witness :
    (dequeue (enqueue (enqueue (⟨[], [], [], []⟩ : QueueState)
        0 "first" "t" "{}" 0 0 3).1 1 "second" "t" "{}" 99 0 3).1 2).2 =
      some ⟨"first", "t", "{}", 0, 3, 3, 0, 0, none, none⟩ ∧
    (dequeue (dequeue (enqueue (enqueue (⟨[], [], [], []⟩ : QueueState)
        0 "first" "t" "{}" 0 0 3).1 1 "second" "t" "{}" 99 0 3).1 2).1
        3).2 =
      some ⟨"second", "t", "{}", 99, 3, 3, 1, 1, none, none⟩ := by
  exact enqueue_fifo_priority_ignored [] [] [] 0 1 2 3 0 99 3 3
    "first" "second" "t" "t" "{}" "{}" (by simp) (by simp)

/-- A key lookup misses exactly when the key is absent. -/
theorem lookupA_eq_none_iff {α : Type} (m : List (String × α)) (k : String) :
    lookupA m k = none ↔ k ∉ m.map Prod.fst := by
  induction m with
  | nil => simp [lookupA]
  | cons p rest ih =>
    by_cases hk : p.1 = k
    · simp [lookupA, hk]
    · simp [lookupA, hk, ih, Ne.symm hk]

/-- Lookup through an append, hit in the left part. -/
theorem lookupA_append_some {α : Type} (m₁ m₂ : List (String × α))
    (k : String) (v : α) (h : lookupA m₁ k = some v) :
    lookupA (m₁ ++ m₂) k = some v := by
  induction m₁ with
  | nil => simp [lookupA] at h
  | cons p rest ih =>
    by_cases hk : p.1 = k
    · simp only [lookupA, hk, if_true] at h ⊢
      exact h
    · simp only [lookupA, hk, if_false] at h ⊢
      exact ih h

/-- Lookup through an append, miss in the left part. -/
theorem lookupA_append_none {α : Type} (m₁ m₂ : List (String × α))
    (k : String) (h : lookupA m₁ k = none) :
    lookupA (m₁ ++ m₂) k = lookupA m₂ k := by
  induction m₁ with
  | nil => simp
  | cons p rest ih =>
    by_cases hk : p.1 = k
    · simp [lookupA, hk] at h
    · rw [List.cons_append]
      simp only [lookupA, hk, if_false] at h ⊢
      exact ih h

/-- Dict assignment with a fresh key is an append. -/
theorem insertAssoc_of_lookupA_none {α : Type} (m : List (String × α))
    (k : String) (v : α) (h : lookupA m k = none) :
    insertAssoc m k v = m ++ [(k, v)] := by
  have hnot : k ∉ m.map Prod.fst := (lookupA_eq_none_iff m k).mp h
  have hfresh : (m.map Prod.fst).contains k = false := by
    rw [← Bool.not_eq_true, List.elem_iff]
    exact hnot
  unfold insertAssoc
  rw [hfresh]
  simp

/-- `seqGo` equation: dependencies met, required step with failed result:
record the result and stop, with only this step executed. -/
theorem seqGo_cons_halt (env : Nat → StepResult) (s : Step)
    (rest : List Step) (i : Nat) (acc : List (String × SeqEntry))
    (hcd : check_dependencies s acc = true)
    (hhalt : (s.required && !(env i).success) = true) :
    seqGo env (s :: rest) i acc =
      (insertAssoc acc s.step_id (.executed (env i)), [i]) := by
  rw [seqGo]
  simp [hcd, hhalt]

/-- `seqGo` equation: dependencies met, no required failure: record the
result, mark the step executed, continue. -/
theorem seqGo_cons_exec (env : Nat → StepResult) (s : Step)
    (rest : List Step) (i : Nat) (acc : List (String × SeqEntry))
    (hcd : check_dependencies s acc = true)
    (hhalt : (s.required && !(env i).success) = false) :
    seqGo env (s :: rest) i acc =
      ((seqGo env rest (i + 1)
          (insertAssoc acc s.step_id (.executed (env i)))).1,
       i :: (seqGo env rest (i + 1)
          (insertAssoc acc s.step_id (.executed (env i)))).2) := by
  rw [seqGo]
  simp [hcd, hhalt]

/-- `seqGo` equation: dependencies unmet on a required step: record the
dependency failure and stop, with nothing executed. -/
theorem seqGo_cons_depfail_req (env : Nat → StepResult) (s : Step)
    (rest : List Step) (i : Nat) (acc : List (String × SeqEntry))
    (hcd : check_dependencies s acc = false)
    (hreq : s.required = true) :
    seqGo env (s :: rest) i acc =
      (insertAssoc acc s.step_id .depFailure, []) := by
  rw [seqGo]
  simp [hcd, hreq]

/-- `seqGo` equation: dependencies unmet on an optional step: record the
dependency failure and continue without executing this step. -/
theorem seqGo_cons_depfail_opt (env : Nat → StepResult) (s : Step)
    (rest : List Step) (i : Nat) (acc : List (String × SeqEntry))
    (hcd : check_dependencies s acc = false)
    (hreq : s.required = false) :
    seqGo env (s :: rest) i acc =
      seqGo env rest (i + 1) (insertAssoc acc s.step_id .depFailure) := by
  rw [seqGo]
  simp [hcd, hreq]

/-- Lookup through an append when the left lookup hits. -/
theorem lookupA_append_left_of_ne_none {α : Type}
    (m₁ m₂ : List (String × α)) (k : String)
    (h : lookupA m₁ k ≠ none) : lookupA (m₁ ++ m₂) k = lookupA m₁ k := by
  cases hv : lookupA m₁ k with
  | none => exact absurd hv h
  | some v => rw [lookupA_append_some m₁ m₂ k v hv]

/-- Singleton lookup, hit. -/
theorem lookupA_singleton_self {α : Type} (k : String) (v : α) :
    lookupA [(k, v)] k = some v := by simp [lookupA]

/-- Singleton lookup, miss. -/
theorem lookupA_singleton_ne {α : Type} (k₀ k : String) (v : α)
    (h : k₀ ≠ k) : lookupA [(k₀, v)] k = none := by simp [lookupA, h]

/-- Core bookkeeping of sequential execution: the accumulated map is only
extended; every entry key comes from the plan; executed positions stay in
range; and a position is executed exactly when its step id maps to the
`executed` record of its oracle result. -/
theorem seqGo_entries (env : Nat → StepResult) :
    ∀ (S : List Step) (i₀ : Nat) (acc : List (String × SeqEntry)),
      (∀ s ∈ S, lookupA acc s.step_id = none) →
      (S.map Step.step_id).Nodup →
      ((∀ k, lookupA acc k ≠ none →
        lookupA (seqGo env S i₀ acc).1 k = lookupA acc k) ∧
       (∀ k, lookupA (seqGo env S i₀ acc).1 k ≠ none →
        lookupA acc k ≠ none ∨ k ∈ S.map Step.step_id) ∧
       (∀ x ∈ (seqGo env S i₀ acc).2, i₀ ≤ x ∧ x < i₀ + S.length) ∧
       (∀ j (hj : j < S.length),
        ((i₀ + j) ∈ (seqGo env S i₀ acc).2 ↔
          lookupA (seqGo env S i₀ acc).1 (S.get ⟨j, hj⟩).step_id =
            some (.executed (env (i₀ + j)))))) := by
  intro S
  induction S with
  | nil =>
    intro i₀ acc _ _
    refine ⟨fun k _ => rfl, fun k h => Or.inl h, ?_, ?_⟩
    · intro x hx
      simp [seqGo] at hx
    · intro j hj
      simp at hj
  | cons s rest ih =>
    intro i₀ acc hfresh hnd
    have hfresh_s : lookupA acc s.step_id = none :=
      hfresh s (List.mem_cons_self s rest)
    rw [List.map_cons, List.nodup_cons] at hnd
    by_cases hcd : check_dependencies s acc = true
    · by_cases hhalt : (s.required && !(env i₀).success) = true
      · -- required step executed and failed: halt
        have heq := seqGo_cons_halt env s rest i₀ acc hcd hhalt
        rw [insertAssoc_of_lookupA_none acc s.step_id _ hfresh_s] at heq
        rw [heq]
        refine ⟨?_, ?_, ?_, ?_⟩
        · intro k hk
          exact lookupA_append_left_of_ne_none acc _ k hk
        · intro k hk
          by_cases ha : lookupA acc k = none
          · rw [lookupA_append_none acc _ k ha] at hk
            by_cases hks : s.step_id = k
            · right
              rw [List.map_cons, ← hks]
              exact List.mem_cons_self _ _
            · rw [lookupA_singleton_ne _ _ _ hks] at hk
              exact absurd rfl hk
          · exact Or.inl ha
        · intro x hx
          simp only [List.mem_singleton] at hx
          subst hx
          simp only [List.length_cons]
          omega
        · intro j hj
          cases j with
          | zero =>
            have hlook : lookupA (acc ++ [(s.step_id,
                SeqEntry.executed (env i₀))]) s.step_id =
                some (.executed (env i₀)) := by
              rw [lookupA_append_none acc _ _ hfresh_s]
              exact lookupA_singleton_self _ _
            simp only [Nat.add_zero]
            have hget0 : ((s :: rest).get ⟨0, hj⟩) = s := rfl
            rw [hget0, hlook]
            simp
          | succ j' =>
            have hjr : j' < rest.length := by
              simpa using hj
            have hkey : (rest.get ⟨j', hjr⟩).step_id ∈
                rest.map Step.step_id :=
              List.mem_map_of_mem Step.step_id (rest.get_mem j' hjr)
            have hkfresh : lookupA acc (rest.get ⟨j', hjr⟩).step_id = none :=
              hfresh _ (List.mem_cons_of_mem s (rest.get_mem j' hjr))
            have hks : s.step_id ≠ (rest.get ⟨j', hjr⟩).step_id := by
              intro habs
              exact hnd.1 (habs ▸ hkey)
            have hlook : lookupA (acc ++ [(s.step_id,
                SeqEntry.executed (env i₀))])
                ((s :: rest).get ⟨j' + 1, hj⟩).step_id = none := by
              simp only [List.get_cons_succ]
              rw [lookupA_append_none acc _ _ hkfresh]
              exact lookupA_singleton_ne _ _ _ hks
            rw [hlook]
            simp only [List.mem_singleton]
            constructor
            · intro habs
              omega
            · intro habs
              exact absurd habs (by simp)
      · -- step executed, no halt: recurse
        have hhalt₂ : (s.required && !(env i₀).success) = false := by
          simpa using hhalt
        have heq := seqGo_cons_exec env s rest i₀ acc hcd hhalt₂
        rw [insertAssoc_of_lookupA_none acc s.step_id _ hfresh_s] at heq
        have hfresh₁ : ∀ t ∈ rest,
            lookupA (acc ++ [(s.step_id, SeqEntry.executed (env i₀))])
              t.step_id = none := by
          intro t ht
          rw [lookupA_append_none acc _ _
            (hfresh t (List.mem_cons_of_mem s ht))]
          exact lookupA_singleton_ne _ _ _
            (fun habs => hnd.1 (habs ▸ List.mem_map_of_mem Step.step_id ht))
        obtain ⟨ihG1, ihG2, ihG3, ihG4⟩ :=
          ih (i₀ + 1) (acc ++ [(s.step_id, SeqEntry.executed (env i₀))])
            hfresh₁ hnd.2
        have hacc₁s : lookupA
            (acc ++ [(s.step_id, SeqEntry.executed (env i₀))]) s.step_id =
            some (.executed (env i₀)) := by
          rw [lookupA_append_none acc _ _ hfresh_s]
          exact lookupA_singleton_self _ _
        rw [heq]
        refine ⟨?_, ?_, ?_, ?_⟩
        · intro k hk
          have h₁ : lookupA
              (acc ++ [(s.step_id, SeqEntry.executed (env i₀))]) k =
              lookupA acc k :=
            lookupA_append_left_of_ne_none acc _ k hk
          rw [ihG1 k (by rw [h₁]; exact hk), h₁]
        · intro k hk
          rcases ihG2 k hk with h₁ | h₁
          · by_cases ha : lookupA acc k = none
            · rw [lookupA_append_none acc _ k ha] at h₁
              by_cases hks : s.step_id = k
              · right
                rw [List.map_cons, ← hks]
                exact List.mem_cons_self _ _
              · rw [lookupA_singleton_ne _ _ _ hks] at h₁
                exact absurd rfl h₁
            · exact Or.inl ha
          · right
            rw [List.map_cons]
            exact List.mem_cons_of_mem _ h₁
        · intro x hx
          simp only [List.mem_cons] at hx
          rcases hx with rfl | hx
          · simp only [List.length_cons]
            omega
          · have := ihG3 x hx
            simp only [List.length_cons]
            omega
        · intro j hj
          cases j with
          | zero =>
            have hlook : lookupA (seqGo env rest (i₀ + 1)
                (acc ++ [(s.step_id, SeqEntry.executed (env i₀))])).1
                s.step_id = some (.executed (env i₀)) := by
              rw [ihG1 s.step_id (by rw [hacc₁s]; simp)]
              exact hacc₁s
            simp only [Nat.add_zero]
            have hget0 : ((s :: rest).get ⟨0, hj⟩) = s := rfl
            rw [hget0, hlook]
            simp
          | succ j' =>
            have hjr : j' < rest.length := by
              simpa using hj
            have hidx : i₀ + (j' + 1) = (i₀ + 1) + j' := by omega
            have hmem : (i₀ + (j' + 1)) ∈
                (i₀ :: (seqGo env rest (i₀ + 1)
                  (acc ++ [(s.step_id, SeqEntry.executed (env i₀))])).2) ↔
                (i₀ + (j' + 1)) ∈ (seqGo env rest (i₀ + 1)
                  (acc ++ [(s.step_id, SeqEntry.executed (env i₀))])).2 := by
              simp only [List.mem_cons]
              constructor
              · rintro (habs | hm)
                · omega
                · exact hm
              · exact Or.inr
            rw [hmem, hidx]
            have := ihG4 j' hjr
            simp only [List.get_cons_succ]
            rw [this]
    · have hcd₂ : check_dependencies s acc = false := by
        simpa using hcd
      cases hreq : s.required with
      | true =>
        -- dependency failure on a required step: halt, nothing executed
        have heq := seqGo_cons_depfail_req env s rest i₀ acc hcd₂ hreq
        rw [insertAssoc_of_lookupA_none acc s.step_id _ hfresh_s] at heq
        rw [heq]
        refine ⟨?_, ?_, ?_, ?_⟩
        · intro k hk
          exact lookupA_append_left_of_ne_none acc _ k hk
        · intro k hk
          by_cases ha : lookupA acc k = none
          · rw [lookupA_append_none acc _ k ha] at hk
            by_cases hks : s.step_id = k
            · right
              rw [List.map_cons, ← hks]
              exact List.mem_cons_self _ _
            · rw [lookupA_singleton_ne _ _ _ hks] at hk
              exact absurd rfl hk
          · exact Or.inl ha
        · intro x hx
          simp at hx
        · intro j hj
          cases j with
          | zero =>
            have hlook : lookupA (acc ++ [(s.step_id,
                SeqEntry.depFailure)]) s.step_id =
                some SeqEntry.depFailure := by
              rw [lookupA_append_none acc _ _ hfresh_s]
              exact lookupA_singleton_self _ _
            simp only [Nat.add_zero]
            have hget0 : ((s :: rest).get ⟨0, hj⟩) = s := rfl
            rw [hget0, hlook]
            constructor
            · intro habs
              simp at habs
            · intro habs
              simp at habs
          | succ j' =>
            have hjr : j' < rest.length := by
              simpa using hj
            have hkfresh : lookupA acc (rest.get ⟨j', hjr⟩).step_id = none :=
              hfresh _ (List.mem_cons_of_mem s (rest.get_mem j' hjr))
            have hks : s.step_id ≠ (rest.get ⟨j', hjr⟩).step_id :=
              fun habs => hnd.1 (habs ▸ List.mem_map_of_mem Step.step_id
                (rest.get_mem j' hjr))
            have hlook : lookupA (acc ++ [(s.step_id,
                SeqEntry.depFailure)])
                ((s :: rest).get ⟨j' + 1, hj⟩).step_id = none := by
              simp only [List.get_cons_succ]
              rw [lookupA_append_none acc _ _ hkfresh]
              exact lookupA_singleton_ne _ _ _ hks
            rw [hlook]
            constructor
            · intro habs
              simp at habs
            · intro habs
              exact absurd habs (by simp)
      | false =>
        -- dependency failure on an optional step: record and continue
        have heq := seqGo_cons_depfail_opt env s rest i₀ acc hcd₂ hreq
        rw [insertAssoc_of_lookupA_none acc s.step_id _ hfresh_s] at heq
        have hfresh₁ : ∀ t ∈ rest,
            lookupA (acc ++ [(s.step_id, SeqEntry.depFailure)])
              t.step_id = none := by
          intro t ht
          rw [lookupA_append_none acc _ _
            (hfresh t (List.mem_cons_of_mem s ht))]
          exact lookupA_singleton_ne _ _ _
            (fun habs => hnd.1 (habs ▸ List.mem_map_of_mem Step.step_id ht))
        obtain ⟨ihG1, ihG2, ihG3, ihG4⟩ :=
          ih (i₀ + 1) (acc ++ [(s.step_id, SeqEntry.depFailure)])
            hfresh₁ hnd.2
        have hacc₁s : lookupA
            (acc ++ [(s.step_id, SeqEntry.depFailure)]) s.step_id =
            some SeqEntry.depFailure := by
          rw [lookupA_append_none acc _ _ hfresh_s]
          exact lookupA_singleton_self _ _
        rw [heq]
        refine ⟨?_, ?_, ?_, ?_⟩
        · intro k hk
          have h₁ : lookupA
              (acc ++ [(s.step_id, SeqEntry.depFailure)]) k =
              lookupA acc k :=
            lookupA_append_left_of_ne_none acc _ k hk
          rw [ihG1 k (by rw [h₁]; exact hk), h₁]
        · intro k hk
          rcases ihG2 k hk with h₁ | h₁
          · by_cases ha : lookupA acc k = none
            · rw [lookupA_append_none acc _ k ha] at h₁
              by_cases hks : s.step_id = k
              · right
                rw [List.map_cons, ← hks]
                exact List.mem_cons_self _ _
              · rw [lookupA_singleton_ne _ _ _ hks] at h₁
                exact absurd rfl h₁
            · exact Or.inl ha
          · right
            rw [List.map_cons]
            exact List.mem_cons_of_mem _ h₁
        · intro x hx
          have := ihG3 x hx
          simp only [List.length_cons]
          omega
        · intro j hj
          cases j with
          | zero =>
            have hlook : lookupA (seqGo env rest (i₀ + 1)
                (acc ++ [(s.step_id, SeqEntry.depFailure)])).1
                s.step_id = some SeqEntry.depFailure := by
              rw [ihG1 s.step_id (by rw [hacc₁s]; simp)]
              exact hacc₁s
            simp only [Nat.add_zero]
            have hget0 : ((s :: rest).get ⟨0, hj⟩) = s := rfl
            rw [hget0, hlook]
            constructor
            · intro hmem
              have := ihG3 _ hmem
              omega
            · intro habs
              simp at habs
          | succ j' =>
            have hjr : j' < rest.length := by
              simpa using hj
            have hidx : i₀ + (j' + 1) = (i₀ + 1) + j' := by omega
            rw [hidx]
            have := ihG4 j' hjr
            simp only [List.get_cons_succ]
            rw [this]

/-- Short-circuit structure of sequential execution: when a required step
has an unsuccessful entry in the results map, every later step has no
entry at all, every earlier step does have an entry, and no step after it
was executed. -/
theorem seqGo_halt (env : Nat → StepResult) :
    ∀ (S : List Step) (i₀ : Nat) (acc : List (String × SeqEntry)),
      (∀ s ∈ S, lookupA acc s.step_id = none) →
      (S.map Step.step_id).Nodup →
      ∀ j (hj : j < S.length), (S.get ⟨j, hj⟩).required = true →
      ∀ e, lookupA (seqGo env S i₀ acc).1 (S.get ⟨j, hj⟩).step_id = some e →
      entrySuccess e = false →
      ((∀ l (hl : l < S.length), j < l →
        lookupA (seqGo env S i₀ acc).1 (S.get ⟨l, hl⟩).step_id = none) ∧
       (∀ l (hl : l < S.length), l < j →
        lookupA (seqGo env S i₀ acc).1 (S.get ⟨l, hl⟩).step_id ≠ none) ∧
       (∀ x ∈ (seqGo env S i₀ acc).2, x ≤ i₀ + j)) := by
  intro S
  induction S with
  | nil =>
    intro i₀ acc _ _ j hj
    simp at hj
  | cons s rest ih =>
    intro i₀ acc hfresh hnd j hj hreq e hent hsucc
    have hfresh_s : lookupA acc s.step_id = none :=
      hfresh s (List.mem_cons_self s rest)
    rw [List.map_cons, List.nodup_cons] at hnd
    have hrestfresh : ∀ (j' : Nat) (hjr : j' < rest.length),
        lookupA (acc ++ [(s.step_id, SeqEntry.executed (env i₀))])
          (rest.get ⟨j', hjr⟩).step_id = none ∧
        lookupA (acc ++ [(s.step_id, SeqEntry.depFailure)])
          (rest.get ⟨j', hjr⟩).step_id = none := by
      intro j' hjr
      have hkfresh : lookupA acc (rest.get ⟨j', hjr⟩).step_id = none :=
        hfresh _ (List.mem_cons_of_mem s (rest.get_mem j' hjr))
      have hks : s.step_id ≠ (rest.get ⟨j', hjr⟩).step_id :=
        fun habs => hnd.1 (habs ▸ List.mem_map_of_mem Step.step_id
          (rest.get_mem j' hjr))
      constructor
      · rw [lookupA_append_none acc _ _ hkfresh]
        exact lookupA_singleton_ne _ _ _ hks
      · rw [lookupA_append_none acc _ _ hkfresh]
        exact lookupA_singleton_ne _ _ _ hks
    by_cases hcd : check_dependencies s acc = true
    · by_cases hhalt : (s.required && !(env i₀).success) = true
      · -- halting branch
        have heq := seqGo_cons_halt env s rest i₀ acc hcd hhalt
        rw [insertAssoc_of_lookupA_none acc s.step_id _ hfresh_s] at heq
        rw [heq] at hent ⊢
        cases j with
        | zero =>
          refine ⟨?_, ?_, ?_⟩
          · intro l hl hlt
            cases l with
            | zero => omega
            | succ l' =>
              have hlr : l' < rest.length := by simpa using hl
              have hget : ((s :: rest).get ⟨l' + 1, hl⟩) =
                  rest.get ⟨l', hlr⟩ := rfl
              rw [hget]
              exact (hrestfresh l' hlr).1
          · intro l hl hlt
            omega
          · intro x hx
            simp only [List.mem_singleton] at hx
            omega
        | succ j' =>
          have hjr : j' < rest.length := by simpa using hj
          have hget : ((s :: rest).get ⟨j' + 1, hj⟩) =
              rest.get ⟨j', hjr⟩ := rfl
          rw [hget] at hent
          rw [(hrestfresh j' hjr).1] at hent
          exact absurd hent (by simp)
      · -- executed, continue
        have hhalt₂ : (s.required && !(env i₀).success) = false := by
          simpa using hhalt
        have heq := seqGo_cons_exec env s rest i₀ acc hcd hhalt₂
        rw [insertAssoc_of_lookupA_none acc s.step_id _ hfresh_s] at heq
        have hfresh₁ : ∀ t ∈ rest,
            lookupA (acc ++ [(s.step_id, SeqEntry.executed (env i₀))])
              t.step_id = none := by
          intro t ht
          rw [lookupA_append_none acc _ _
            (hfresh t (List.mem_cons_of_mem s ht))]
          exact lookupA_singleton_ne _ _ _
            (fun habs => hnd.1 (habs ▸ List.mem_map_of_mem Step.step_id ht))
        have hacc₁s : lookupA
            (acc ++ [(s.step_id, SeqEntry.executed (env i₀))]) s.step_id =
            some (.executed (env i₀)) := by
          rw [lookupA_append_none acc _ _ hfresh_s]
          exact lookupA_singleton_self _ _
        obtain ⟨entG1, _, entG3, _⟩ := seqGo_entries env rest (i₀ + 1)
          (acc ++ [(s.step_id, SeqEntry.executed (env i₀))]) hfresh₁ hnd.2
        have hlookQ : lookupA (seqGo env rest (i₀ + 1)
            (acc ++ [(s.step_id, SeqEntry.executed (env i₀))])).1
            s.step_id = some (.executed (env i₀)) := by
          rw [entG1 s.step_id (by rw [hacc₁s]; simp)]
          exact hacc₁s
        rw [heq] at hent ⊢
        cases j with
        | zero =>
          exfalso
          have hget : ((s :: rest).get ⟨0, hj⟩) = s := rfl
          rw [hget] at hent hreq
          rw [hlookQ] at hent
          cases hent
          rw [hreq] at hhalt₂
          simp only [Bool.true_and, Bool.not_eq_false'] at hhalt₂
          simp [entrySuccess, hhalt₂] at hsucc
        | succ j' =>
          have hjr : j' < rest.length := by simpa using hj
          have hget : ((s :: rest).get ⟨j' + 1, hj⟩) =
              rest.get ⟨j', hjr⟩ := rfl
          rw [hget] at hent hreq
          obtain ⟨ihA, ihB, ihC⟩ := ih (i₀ + 1)
            (acc ++ [(s.step_id, SeqEntry.executed (env i₀))])
            hfresh₁ hnd.2 j' hjr hreq e hent hsucc
          refine ⟨?_, ?_, ?_⟩
          · intro l hl hlt
            cases l with
            | zero => omega
            | succ l' =>
              have hlr : l' < rest.length := by simpa using hl
              have hgl : ((s :: rest).get ⟨l' + 1, hl⟩) =
                  rest.get ⟨l', hlr⟩ := rfl
              rw [hgl]
              exact ihA l' hlr (by omega)
          · intro l hl hlt
            cases l with
            | zero =>
              have hgl : ((s :: rest).get ⟨0, hl⟩) = s := rfl
              rw [hgl, hlookQ]
              simp
            | succ l' =>
              have hlr : l' < rest.length := by simpa using hl
              have hgl : ((s :: rest).get ⟨l' + 1, hl⟩) =
                  rest.get ⟨l', hlr⟩ := rfl
              rw [hgl]
              exact ihB l' hlr (by omega)
          · intro x hx
            simp only [List.mem_cons] at hx
            rcases hx with rfl | hx
            · omega
            · have := ihC x hx
              omega
    · have hcd₂ : check_dependencies s acc = false := by simpa using hcd
      cases hreqs : s.required with
      | true =>
        have heq := seqGo_cons_depfail_req env s rest i₀ acc hcd₂ hreqs
        rw [insertAssoc_of_lookupA_none acc s.step_id _ hfresh_s] at heq
        rw [heq] at hent ⊢
        cases j with
        | zero =>
          refine ⟨?_, ?_, ?_⟩
          · intro l hl hlt
            cases l with
            | zero => omega
            | succ l' =>
              have hlr : l' < rest.length := by simpa using hl
              have hgl : ((s :: rest).get ⟨l' + 1, hl⟩) =
                  rest.get ⟨l', hlr⟩ := rfl
              rw [hgl]
              exact (hrestfresh l' hlr).2
          · intro l hl hlt
            omega
          · intro x hx
            simp at hx
        | succ j' =>
          have hjr : j' < rest.length := by simpa using hj
          have hget : ((s :: rest).get ⟨j' + 1, hj⟩) =
              rest.get ⟨j', hjr⟩ := rfl
          rw [hget] at hent
          rw [(hrestfresh j' hjr).2] at hent
          exact absurd hent (by simp)
      | false =>
        have heq := seqGo_cons_depfail_opt env s rest i₀ acc hcd₂ hreqs
        rw [insertAssoc_of_lookupA_none acc s.step_id _ hfresh_s] at heq
        have hfresh₁ : ∀ t ∈ rest,
            lookupA (acc ++ [(s.step_id, SeqEntry.depFailure)])
              t.step_id = none := by
          intro t ht
          rw [lookupA_append_none acc _ _
            (hfresh t (List.mem_cons_of_mem s ht))]
          exact lookupA_singleton_ne _ _ _
            (fun habs => hnd.1 (habs ▸ List.mem_map_of_mem Step.step_id ht))
        have hacc₁s : lookupA
            (acc ++ [(s.step_id, SeqEntry.depFailure)]) s.step_id =
            some SeqEntry.depFailure := by
          rw [lookupA_append_none acc _ _ hfresh_s]
          exact lookupA_singleton_self _ _
        obtain ⟨entG1, _, entG3, _⟩ := seqGo_entries env rest (i₀ + 1)
          (acc ++ [(s.step_id, SeqEntry.depFailure)]) hfresh₁ hnd.2
        have hlookQ : lookupA (seqGo env rest (i₀ + 1)
            (acc ++ [(s.step_id, SeqEntry.depFailure)])).1
            s.step_id = some SeqEntry.depFailure := by
          rw [entG1 s.step_id (by rw [hacc₁s]; simp)]
          exact hacc₁s
        rw [heq] at hent ⊢
        cases j with
        | zero =>
          exfalso
          have hget : ((s :: rest).get ⟨0, hj⟩) = s := rfl
          rw [hget] at hreq
          rw [hreq] at hreqs
          exact absurd hreqs (by simp)
        | succ j' =>
          have hjr : j' < rest.length := by simpa using hj
          have hget : ((s :: rest).get ⟨j' + 1, hj⟩) =
              rest.get ⟨j', hjr⟩ := rfl
          rw [hget] at hent hreq
          obtain ⟨ihA, ihB, ihC⟩ := ih (i₀ + 1)
            (acc ++ [(s.step_id, SeqEntry.depFailure)])
            hfresh₁ hnd.2 j' hjr hreq e hent hsucc
          refine ⟨?_, ?_, ?_⟩
          · intro l hl hlt
            cases l with
            | zero => omega
            | succ l' =>
              have hlr : l' < rest.length := by simpa using hl
              have hgl : ((s :: rest).get ⟨l' + 1, hl⟩) =
                  rest.get ⟨l', hlr⟩ := rfl
              rw [hgl]
              exact ihA l' hlr (by omega)
          · intro l hl hlt
            cases l with
            | zero =>
              have hgl : ((s :: rest).get ⟨0, hl⟩) = s := rfl
              rw [hgl, hlookQ]
              simp
            | succ l' =>
              have hlr : l' < rest.length := by simpa using hl
              have hgl : ((s :: rest).get ⟨l' + 1, hl⟩) =
                  rest.get ⟨l', hlr⟩ := rfl
              rw [hgl]
              exact ihB l' hlr (by omega)
          · intro x hx
            have := ihC x hx
            omega

/-- A recorded entry is the dependency-failure record exactly when the
dependency check against the results accumulated before that step failed
(in which case the step was recorded without being executed). -/
theorem seqGo_depfail (env : Nat → StepResult) :
    ∀ (S : List Step) (i₀ : Nat) (acc : List (String × SeqEntry)),
      (∀ s ∈ S, lookupA acc s.step_id = none) →
      (S.map Step.step_id).Nodup →
      ∀ j (hj : j < S.length) (e : SeqEntry),
        lookupA (seqGo env S i₀ acc).1 (S.get ⟨j, hj⟩).step_id = some e →
        (e = .depFailure ↔
          check_dependencies (S.get ⟨j, hj⟩)
            (seqGo env (S.take j) i₀ acc).1 = false) := by
  intro S
  induction S with
  | nil =>
    intro i₀ acc _ _ j hj
    simp at hj
  | cons s rest ih =>
    intro i₀ acc hfresh hnd j hj e hent
    have hfresh_s : lookupA acc s.step_id = none :=
      hfresh s (List.mem_cons_self s rest)
    rw [List.map_cons, List.nodup_cons] at hnd
    have hrestfresh : ∀ (j' : Nat) (hjr : j' < rest.length),
        lookupA (acc ++ [(s.step_id, SeqEntry.executed (env i₀))])
          (rest.get ⟨j', hjr⟩).step_id = none ∧
        lookupA (acc ++ [(s.step_id, SeqEntry.depFailure)])
          (rest.get ⟨j', hjr⟩).step_id = none := by
      intro j' hjr
      have hkfresh : lookupA acc (rest.get ⟨j', hjr⟩).step_id = none :=
        hfresh _ (List.mem_cons_of_mem s (rest.get_mem j' hjr))
      have hks : s.step_id ≠ (rest.get ⟨j', hjr⟩).step_id :=
        fun habs => hnd.1 (habs ▸ List.mem_map_of_mem Step.step_id
          (rest.get_mem j' hjr))
      constructor
      · rw [lookupA_append_none acc _ _ hkfresh]
        exact lookupA_singleton_ne _ _ _ hks
      · rw [lookupA_append_none acc _ _ hkfresh]
        exact lookupA_singleton_ne _ _ _ hks
    have hpre0 : (seqGo env (List.take 0 (s :: rest)) i₀ acc).1 = acc := rfl
    by_cases hcd : check_dependencies s acc = true
    · by_cases hhalt : (s.required && !(env i₀).success) = true
      · have heq := seqGo_cons_halt env s rest i₀ acc hcd hhalt
        rw [insertAssoc_of_lookupA_none acc s.step_id _ hfresh_s] at heq
        rw [heq] at hent
        cases j with
        | zero =>
          have hget : ((s :: rest).get ⟨0, hj⟩) = s := rfl
          rw [hget] at hent ⊢
          have hlook : lookupA (acc ++ [(s.step_id,
              SeqEntry.executed (env i₀))]) s.step_id =
              some (.executed (env i₀)) := by
            rw [lookupA_append_none acc _ _ hfresh_s]
            exact lookupA_singleton_self _ _
          rw [hlook] at hent
          cases hent
          rw [hpre0]
          constructor
          · intro habs
            exact absurd habs (by simp)
          · intro habs
            rw [hcd] at habs
            exact absurd habs (by simp)
        | succ j' =>
          have hjr : j' < rest.length := by simpa using hj
          have hget : ((s :: rest).get ⟨j' + 1, hj⟩) =
              rest.get ⟨j', hjr⟩ := rfl
          rw [hget] at hent
          rw [(hrestfresh j' hjr).1] at hent
          exact absurd hent (by simp)
      · have hhalt₂ : (s.required && !(env i₀).success) = false := by
          simpa using hhalt
        have heq := seqGo_cons_exec env s rest i₀ acc hcd hhalt₂
        rw [insertAssoc_of_lookupA_none acc s.step_id _ hfresh_s] at heq
        have hfresh₁ : ∀ t ∈ rest,
            lookupA (acc ++ [(s.step_id, SeqEntry.executed (env i₀))])
              t.step_id = none := by
          intro t ht
          rw [lookupA_append_none acc _ _
            (hfresh t (List.mem_cons_of_mem s ht))]
          exact lookupA_singleton_ne _ _ _
            (fun habs => hnd.1 (habs ▸ List.mem_map_of_mem Step.step_id ht))
        have hacc₁s : lookupA
            (acc ++ [(s.step_id, SeqEntry.executed (env i₀))]) s.step_id =
            some (.executed (env i₀)) := by
          rw [lookupA_append_none acc _ _ hfresh_s]
          exact lookupA_singleton_self _ _
        obtain ⟨entG1, _, _, _⟩ := seqGo_entries env rest (i₀ + 1)
          (acc ++ [(s.step_id, SeqEntry.executed (env i₀))]) hfresh₁ hnd.2
        rw [heq] at hent
        cases j with
        | zero =>
          have hget : ((s :: rest).get ⟨0, hj⟩) = s := rfl
          rw [hget] at hent ⊢
          have hlookQ : lookupA (seqGo env rest (i₀ + 1)
              (acc ++ [(s.step_id, SeqEntry.executed (env i₀))])).1
              s.step_id = some (.executed (env i₀)) := by
            rw [entG1 s.step_id (by rw [hacc₁s]; simp)]
            exact hacc₁s
          rw [hlookQ] at hent
          cases hent
          rw [hpre0]
          constructor
          · intro habs
            exact absurd habs (by simp)
          · intro habs
            rw [hcd] at habs
            exact absurd habs (by simp)
        | succ j' =>
          have hjr : j' < rest.length := by simpa using hj
          have hget : ((s :: rest).get ⟨j' + 1, hj⟩) =
              rest.get ⟨j', hjr⟩ := rfl
          rw [hget] at hent ⊢
          have hih := ih (i₀ + 1)
            (acc ++ [(s.step_id, SeqEntry.executed (env i₀))])
            hfresh₁ hnd.2 j' hjr e hent
          have htake : (s :: rest).take (j' + 1) = s :: rest.take j' := rfl
          rw [htake]
          have heqtake := seqGo_cons_exec env s (rest.take j') i₀ acc
            hcd hhalt₂
          rw [insertAssoc_of_lookupA_none acc s.step_id _ hfresh_s]
            at heqtake
          rw [heqtake]
          exact hih
    · have hcd₂ : check_dependencies s acc = false := by simpa using hcd
      cases hreqs : s.required with
      | true =>
        have heq := seqGo_cons_depfail_req env s rest i₀ acc hcd₂ hreqs
        rw [insertAssoc_of_lookupA_none acc s.step_id _ hfresh_s] at heq
        rw [heq] at hent
        cases j with
        | zero =>
          have hget : ((s :: rest).get ⟨0, hj⟩) = s := rfl
          rw [hget] at hent ⊢
          have hlook : lookupA (acc ++ [(s.step_id, SeqEntry.depFailure)])
              s.step_id = some SeqEntry.depFailure := by
            rw [lookupA_append_none acc _ _ hfresh_s]
            exact lookupA_singleton_self _ _
          rw [hlook] at hent
          cases hent
          rw [hpre0]
          constructor
          · intro _
            exact hcd₂
          · intro _
            rfl
        | succ j' =>
          have hjr : j' < rest.length := by simpa using hj
          have hget : ((s :: rest).get ⟨j' + 1, hj⟩) =
              rest.get ⟨j', hjr⟩ := rfl
          rw [hget] at hent
          rw [(hrestfresh j' hjr).2] at hent
          exact absurd hent (by simp)
      | false =>
        have heq := seqGo_cons_depfail_opt env s rest i₀ acc hcd₂ hreqs
        rw [insertAssoc_of_lookupA_none acc s.step_id _ hfresh_s] at heq
        have hfresh₁ : ∀ t ∈ rest,
            lookupA (acc ++ [(s.step_id, SeqEntry.depFailure)])
              t.step_id = none := by
          intro t ht
          rw [lookupA_append_none acc _ _
            (hfresh t (List.mem_cons_of_mem s ht))]
          exact lookupA_singleton_ne _ _ _
            (fun habs => hnd.1 (habs ▸ List.mem_map_of_mem Step.step_id ht))
        have hacc₁s : lookupA
            (acc ++ [(s.step_id, SeqEntry.depFailure)]) s.step_id =
            some SeqEntry.depFailure := by
          rw [lookupA_append_none acc _ _ hfresh_s]
          exact lookupA_singleton_self _ _
        obtain ⟨entG1, _, _, _⟩ := seqGo_entries env rest (i₀ + 1)
          (acc ++ [(s.step_id, SeqEntry.depFailure)]) hfresh₁ hnd.2
        rw [heq] at hent
        cases j with
        | zero =>
          have hget : ((s :: rest).get ⟨0, hj⟩) = s := rfl
          rw [hget] at hent ⊢
          have hlookQ : lookupA (seqGo env rest (i₀ + 1)
              (acc ++ [(s.step_id, SeqEntry.depFailure)])).1
              s.step_id = some SeqEntry.depFailure := by
            rw [entG1 s.step_id (by rw [hacc₁s]; simp)]
            exact hacc₁s
          rw [hlookQ] at hent
          cases hent
          rw [hpre0]
          constructor
          · intro _
            exact hcd₂
          · intro _
            rfl
        | succ j' =>
          have hjr : j' < rest.length := by simpa using hj
          have hget : ((s :: rest).get ⟨j' + 1, hj⟩) =
              rest.get ⟨j', hjr⟩ := rfl
          rw [hget] at hent ⊢
          have hih := ih (i₀ + 1)
            (acc ++ [(s.step_id, SeqEntry.depFailure)])
            hfresh₁ hnd.2 j' hjr e hent
          have htake : (s :: rest).take (j' + 1) = s :: rest.take j' := rfl
          rw [htake]
          have heqtake := seqGo_cons_depfail_opt env s (rest.take j') i₀ acc
            hcd₂ hreqs
          rw [insertAssoc_of_lookupA_none acc s.step_id _ hfresh_s]
            at heqtake
          rw [heqtake]
          exact hih

/-- Claim C4 amended: in sequential execution (step ids distinct, as the
planner generates them), (1) a step recorded in the results map carries
the dependency-failure record exactly when its dependency check against
the results accumulated before it failed, and such a step is never
executed (no tool calls); (2) a position is executed exactly when its id
maps to the record returned by `execute_step`; (3) when a required step
has an unsuccessful entry, no later step has any entry (they are not
marked failed), every earlier step has already been processed and has a
result entry — though an earlier optional step with unmet dependencies
was recorded without being executed — and no position after it was
executed. -/
theorem seq_plan_dependency_gating (plan : ExecutionPlan)
    (env : Nat → StepResult)
    (hnd : (plan.steps.map Step.step_id).Nodup) :
    (∀ j (hj : j < plan.steps.length) (e : SeqEntry),
      lookupA (execute_sequential_plan plan env).1
          (plan.steps.get ⟨j, hj⟩).step_id = some e →
      ((e = .depFailure ↔
        check_dependencies (plan.steps.get ⟨j, hj⟩)
          (seqGo env (plan.steps.take j) 0 []).1 = false) ∧
       (e = .depFailure → j ∉ (execute_sequential_plan plan env).2))) ∧
    (∀ j (hj : j < plan.steps.length),
      (j ∈ (execute_sequential_plan plan env).2 ↔
        lookupA (execute_sequential_plan plan env).1
          (plan.steps.get ⟨j, hj⟩).step_id =
            some (.executed (env j)))) ∧
    (∀ j (hj : j < plan.steps.length),
      (plan.steps.get ⟨j, hj⟩).required = true →
      ∀ e, lookupA (execute_sequential_plan plan env).1
          (plan.steps.get ⟨j, hj⟩).step_id = some e →
      entrySuccess e = false →
      ((∀ l (hl : l < plan.steps.length), j < l →
        lookupA (execute_sequential_plan plan env).1
          (plan.steps.get ⟨l, hl⟩).step_id = none) ∧
       (∀ l (hl : l < plan.steps.length), l < j →
        lookupA (execute_sequential_plan plan env).1
          (plan.steps.get ⟨l, hl⟩).step_id ≠ none) ∧
       (∀ x ∈ (execute_sequential_plan plan env).2, x ≤ j))) := by
  simp only [execute_sequential_plan]
  have hfresh : ∀ s ∈ plan.steps, lookupA ([] : List (String × SeqEntry))
      s.step_id = none := fun s _ => rfl
  obtain ⟨_, _, _, entG4⟩ := seqGo_entries env plan.steps 0 [] hfresh hnd
  refine ⟨?_, ?_, ?_⟩
  · intro j hj e hent
    refine ⟨seqGo_depfail env plan.steps 0 [] hfresh hnd j hj e hent, ?_⟩
    intro hdep hmem
    have h4 := entG4 j hj
    rw [Nat.zero_add] at h4
    have hexec := h4.mp hmem
    rw [hent] at hexec
    rw [hdep] at hexec
    simp at hexec
  · intro j hj
    have h4 := entG4 j hj
    rw [Nat.zero_add] at h4
    exact h4
  · intro j hj hreq e hent hsucc
    have hh := seqGo_halt env plan.steps 0 [] hfresh hnd j hj hreq e hent
      hsucc
    rw [Nat.zero_add] at hh
    exact hh

/-- A bare required step for the C4 witness plan. -/
def mkC4Step (sid ds : String) (deps : List String) : Step :=
  { step_id := sid, data_source := ds, mcp_tools := [],
    required := true, estimated_time := 0, depends_on := deps }

/-- The C4 witness plan: three required steps in a linear dependency
chain. -/
def c4Plan : ExecutionPlan :=
  { plan_id := "plan-c4"
    steps := [mkC4Step "step_1" "performance_metrics" [],
      mkC4Step "step_2" "campaign_data" ["step_1"],
      mkC4Step "step_3" "financial_data" ["step_2"]]
    estimated_time := 90
    complexity := "medium"
    parallel_execution := false }

/-- The C4 witness oracle: every executed step reports failure. -/
def c4Env : Nat → StepResult :=
  fun _ => {
    success := false, data := [], tool_results := 0,
    successful_tools := 0 }

/-- The C4 counterexample plan: an optional first step with an unmet
dependency, followed by a required step. -/
def c4CexPlan : ExecutionPlan :=
  { plan_id := "plan-c4-cex"
    steps := [{
        step_id := "step_1", data_source := "user_analytics",
        mcp_tools := [], required := false, estimated_time := 0,
        depends_on := ["step_x"] },
      {
        step_id := "step_2", data_source := "performance_metrics",
        mcp_tools := [], required := true, estimated_time := 0,
        depends_on := [] }]
    estimated_time := 0
    complexity := "simple"
    parallel_execution := false }

/-- Claim C4 counterexample: when the optional first step has an unmet
dependency and the required second step then executes and fails, the
first step — listed before the failing required step — has a
dependency-failure entry but was never executed (the executed-position
list is exactly `[1]`), so the claim that every step listed before the
failing required step has already executed is false at this input. -/
theorem seq_earlier_step_not_executed_cex :
    ((c4CexPlan.steps.get ⟨1, by decide⟩).required = true) ∧
    lookupA (execute_sequential_plan c4CexPlan c4Env).1 "step_2" =
      some (.executed (c4Env 1)) ∧
    entrySuccess (.executed (c4Env 1)) = false ∧
    lookupA (execute_sequential_plan c4CexPlan c4Env).1 "step_1" =
      some .depFailure ∧
    (execute_sequential_plan c4CexPlan c4Env).2 = [1] :=
  ⟨rfl, rfl, rfl, rfl, rfl⟩

/-- Witness for claim C4: when the first (required) step fails, the later
steps receive no result entries and nothing after position 0 is
executed. -/
theorem seq_plan_dependency_gating_witness :
    lookupA (execute_sequential_plan c4Plan c4Env).1 "step_2" = none ∧
    lookupA (execute_sequential_plan c4Plan c4Env).1 "step_3" = none ∧
    (∀ x ∈ (execute_sequential_plan c4Plan c4Env).2, x ≤ 0) := by
  have h := (seq_plan_dependency_gating c4Plan c4Env (by decide)).2.2 0
    (by decide) rfl (.executed (c4Env 0)) rfl rfl
  obtain ⟨hlater, _, hex⟩ := h
  exact ⟨hlater 1 (by decide) (by decide), hlater 2 (by decide) (by decide),
    hex⟩

/-- Witness for claim C6: with two data sources of which one is required
with two tool calls, the planner chooses sequential execution and step 2
depends exactly on the id of step 1. -/
theorem plan_parallel_rule_and_chain_witness :
    (create_execution_plan [perfSource, campaignSource] metricsIntent
      "uuid-c6").parallel_execution = false ∧
    ((create_execution_plan [perfSource, campaignSource] metricsIntent
      "uuid-c6").steps.get ⟨1, by decide⟩).depends_on =
      [((create_execution_plan [perfSource, campaignSource] metricsIntent
        "uuid-c6").steps.get ⟨0, by decide⟩).step_id] := by
  refine ⟨rfl, ?_⟩
  exact (plan_parallel_rule_and_chain [perfSource, campaignSource]
    metricsIntent "uuid-c6").2.2.2 0 (by decide) rfl

/-- An invalid plan for the C7 witness: its estimated time exceeds the
300-unit ceiling. -/
def c7BadPlan : ExecutionPlan :=
  { plan_id := "plan-c7"
    steps := [{
      step_id := "step_1", data_source := "performance_metrics",
      mcp_tools := [], required := true, estimated_time := 400,
      depends_on := [] }]
    estimated_time := 400
    complexity := "complex"
    parallel_execution := false }

/-- Witness for claim C7: a plan whose estimated time exceeds 300 is
rejected and its reason is not the valid-plan string. -/
theorem validate_plan_accepts_iff_witness :
    (validate_execution_plan c7BadPlan).1 = false ∧
    (validate_execution_plan c7BadPlan).2 ≠ "Plan is valid" := by
  refine ⟨rfl, ?_⟩
  exact (validate_plan_accepts_iff c7BadPlan).2 rfl
